import Mathlib

/-
Verification of the kubernetes_logs pod metadata annotator
(src/sources/kubernetes_logs/pod_metadata_annotator.rs).

The annotator enriches a log record with pod/container metadata: it parses
the log file path, looks a pod up in a snapshot store, and runs five
projector functions that conditionally insert fields into the record.

Rust `Option` becomes Lean `Option`.  A Rust panic (reachable through the
unchecked index `owner_references[0]`) is modelled by an `Option` result on
the functions that can reach it: `none` models the panic, `some log` the
normally returned (mutated) record.
-/

set_option autoImplicit false

/-- A structured path into the record: a list of opaque segments.  A map key
containing `.` stays one single segment. -/
abbrev FieldPath := List String

/-- Values inserted by the annotator: strings, and lists of strings
(for `pod_ips`). -/
inductive Value where
  | str : String → Value
  | list : List String → Value
deriving DecidableEq, Repr

/-- Modelled from the spec: the record mutation primitive (`LogEvent` and its
`insert`, from the `lookup` / event crates) is an external collaborator and is
not under src/.  §6 of the spec: `insert(path, value)`, atomic, idempotent on
overwrite, addressing a fixed named field or a dynamically keyed child under
a configured path; a path is addressed as an opaque segment list.  The record
is the path-addressable mapping, kept in insertion order. -/
structure LogEvent where
  entries : List (FieldPath × Value)
deriving DecidableEq, Repr

/-- Does the record already bind the path `p`? -/
def LogEvent.hasKey (log : LogEvent) (p : FieldPath) : Bool :=
  log.entries.any fun kv => decide (kv.1 = p)

/-- Insert `v` at path `p`: overwrite every binding of `p` if present,
append a new binding otherwise. -/
def LogEvent.insert (log : LogEvent) (p : FieldPath) (v : Value) : LogEvent :=
  if log.hasKey p then
    ⟨log.entries.map fun kv => if kv.1 = p then (p, v) else kv⟩
  else
    ⟨log.entries ++ [(p, v)]⟩

/-- Read the value at path `p` (first binding wins). -/
def LogEvent.get (log : LogEvent) (p : FieldPath) : Option Value :=
  (log.entries.find? fun kv => decide (kv.1 = p)).map Prod.snd

/-- Configuration for how the events are annotated with Pod metadata
(`FieldsSpec`, pod_metadata_annotator.rs lines 21-57).  Each slot is an
optional output path; `none` disables the field. -/
structure FieldsSpec where
  pod_name : Option FieldPath
  pod_namespace : Option FieldPath
  pod_uid : Option FieldPath
  pod_ip : Option FieldPath
  pod_ips : Option FieldPath
  pod_labels : Option FieldPath
  pod_annotations : Option FieldPath
  pod_node_name : Option FieldPath
  pod_owner : Option FieldPath
  container_name : Option FieldPath
  container_id : Option FieldPath
  container_image : Option FieldPath

/-- Source `impl Default for FieldsSpec` (lines 59-92): every slot enabled under the
`kubernetes` root. -/
def FieldsSpec.default : FieldsSpec where
  pod_name := some ["kubernetes", "pod_name"]
  pod_namespace := some ["kubernetes", "pod_namespace"]
  pod_uid := some ["kubernetes", "pod_uid"]
  pod_ip := some ["kubernetes", "pod_ip"]
  pod_ips := some ["kubernetes", "pod_ips"]
  pod_labels := some ["kubernetes", "pod_labels"]
  pod_annotations := some ["kubernetes", "pod_annotations"]
  pod_node_name := some ["kubernetes", "pod_node_name"]
  pod_owner := some ["kubernetes", "pod_owner"]
  container_name := some ["kubernetes", "container_name"]
  container_id := some ["kubernetes", "container_id"]
  container_image := some ["kubernetes", "container_image"]

/-- k8s `OwnerReference` (the two fields the annotator reads). -/
structure OwnerReference where
  kind : String
  name : String
deriving DecidableEq, Repr

/-- k8s `ObjectMeta` (the fields the annotator reads).  `nspace` stands for
the source's `namespace` field (a reserved word in Lean).  The label and
annotation maps (BTreeMap in the source) are key-value lists. -/
structure ObjectMeta where
  name : Option String
  nspace : Option String
  uid : Option String
  owner_references : Option (List OwnerReference)
  labels : Option (List (String × String))
  annotations : Option (List (String × String))
deriving DecidableEq, Repr

/-- k8s `Container` (name, optional image). -/
structure Container where
  name : String
  image : Option String
deriving DecidableEq, Repr

/-- k8s `ContainerStatus` (name, optional container id). -/
structure ContainerStatus where
  name : String
  container_id : Option String
deriving DecidableEq, Repr

/-- k8s `PodIP` (optional address). -/
structure PodIP where
  ip : Option String
deriving DecidableEq, Repr

/-- k8s `PodSpec` (the fields the annotator reads). -/
structure PodSpec where
  node_name : Option String
  containers : List Container
deriving DecidableEq, Repr

/-- k8s `PodStatus` (the fields the annotator reads). -/
structure PodStatus where
  pod_ip : Option String
  pod_ips : Option (List PodIP)
  container_statuses : Option (List ContainerStatus)
deriving DecidableEq, Repr

/-- k8s `Pod`: metadata plus optional spec and status. -/
structure Pod where
  metadata : ObjectMeta
  spec : Option PodSpec
  status : Option PodStatus
deriving DecidableEq, Repr

/-- Source `LogFileInfo` from path_helpers: what the path parser extracts. -/
structure LogFileInfo where
  pod_namespace : String
  pod_name : String
  pod_uid : String
  container_name : String
deriving DecidableEq, Repr

/-- Split a character list on a separator character. -/
def splitOnChar (c : Char) : List Char → List (List Char)
  | [] => [[]]
  | x :: xs =>
    let r := splitOnChar c xs
    if x = c then [] :: r
    else
      match r with
      | [] => [[x]]
      | y :: ys => (x :: y) :: ys

/-- Does the character list end with `.log`? -/
def endsWithDotLog (s : List Char) : Bool :=
  List.isPrefixOf ['g', 'o', 'l', '.'] s.reverse

/-- Modelled from the spec: `parse_log_file_path` lives in
path_helpers.rs, which is not under src/.  §6 of the spec: it recognises
exactly paths of the shape
`.../<namespace>_<pod_name>_<pod_uid>/<container_name>/*.log`
and fails closed (`none`) on anything else. -/
def parse_log_file_path (file : String) : Option LogFileInfo :=
  match (splitOnChar '/' file.toList).reverse with
  | file_name :: container_seg :: pod_dir :: _ :: _ =>
    if endsWithDotLog file_name then
      match splitOnChar '_' pod_dir with
      | [ns, pod, uid] => some ⟨⟨ns⟩, ⟨pod⟩, ⟨uid⟩, ⟨container_seg⟩⟩
      | _ => none
    else none
  | _ => none

/-- The repeated source pattern `if let (Some(key), Some(val)) = (&key.path,
val) { log.insert(key, val) }` used by every scalar slot. -/
def insertIfBoth (log : LogEvent) (key : Option FieldPath) (val : Option String) : LogEvent :=
  match key, val with
  | some k, some v => log.insert k (Value.str v)
  | _, _ => log

/-- Source `annotate_from_file_info` (lines 152-160): writes the parsed container
name when the `container_name` slot is enabled. -/
def annotate_from_file_info (log : LogEvent) (fields_spec : FieldsSpec)
    (file_info : LogFileInfo) : LogEvent :=
  match fields_spec.container_name with
  | some path => log.insert path (Value.str file_info.container_name)
  | none => log

/-- The labels / annotations loops of `annotate_from_metadata` (lines
184-209): each map entry is inserted as a child of the configured path,
its raw key appended as one opaque segment. -/
def insertMaps (log : LogEvent) (fields_spec : FieldsSpec) (metadata : ObjectMeta) : LogEvent :=
  let log :=
    match metadata.labels, fields_spec.pod_labels with
    | some ls, some pre => ls.foldl (fun l kv => l.insert (pre ++ [kv.1]) (Value.str kv.2)) log
    | _, _ => log
  match metadata.annotations, fields_spec.pod_annotations with
  | some ans, some pre => ans.foldl (fun l kv => l.insert (pre ++ [kv.1]) (Value.str kv.2)) log
  | _, _ => log

/-- Source `annotate_from_metadata` (lines 162-210).  The pod_owner branch indexes
`owner_references[0]` without an emptiness check; on `Some` of an empty list
with the slot enabled, the Rust code panics, modelled here as `none`. -/
def annotate_from_metadata (log : LogEvent) (fields_spec : FieldsSpec)
    (metadata : ObjectMeta) : Option LogEvent :=
  let log := insertIfBoth log fields_spec.pod_name metadata.name
  let log := insertIfBoth log fields_spec.pod_namespace metadata.nspace
  let log := insertIfBoth log fields_spec.pod_uid metadata.uid
  match fields_spec.pod_owner, metadata.owner_references with
  | some key, some refs =>
    match refs.head? with
    | none => none
    | some r =>
      some (insertMaps (log.insert key (Value.str (r.kind ++ "/" ++ r.name)))
        fields_spec metadata)
  | _, _ => some (insertMaps log fields_spec metadata)

/-- Source `annotate_from_pod_spec` (lines 212-218). -/
def annotate_from_pod_spec (log : LogEvent) (fields_spec : FieldsSpec)
    (pod_spec : PodSpec) : LogEvent :=
  insertIfBoth log fields_spec.pod_node_name pod_spec.node_name

/-- Source `annotate_from_pod_status` (lines 220-236): the scalar `pod_ip` is
skipped when absent; a present `pod_ips` list is filtered for present
addresses and written as a list, possibly empty. -/
def annotate_from_pod_status (log : LogEvent) (fields_spec : FieldsSpec)
    (pod_status : PodStatus) : LogEvent :=
  let log := insertIfBoth log fields_spec.pod_ip pod_status.pod_ip
  match fields_spec.pod_ips, pod_status.pod_ips with
  | some key, some val => log.insert key (Value.list (val.filterMap PodIP.ip))
  | _, _ => log

/-- Source `annotate_from_container_status` (lines 238-248). -/
def annotate_from_container_status (log : LogEvent) (fields_spec : FieldsSpec)
    (container_status : ContainerStatus) : LogEvent :=
  insertIfBoth log fields_spec.container_id container_status.container_id

/-- Source `annotate_from_container` (lines 250-256). -/
def annotate_from_container (log : LogEvent) (fields_spec : FieldsSpec)
    (container : Container) : LogEvent :=
  insertIfBoth log fields_spec.container_image container.image

/-- Source `PodMetadataAnnotator` (lines 95-98): the snapshot store (an external
collaborator read through `get`, spec §6) is a lookup from
(pod name, namespace) to a pod. -/
structure PodMetadataAnnotator where
  pods_state_reader : String → String → Option Pod
  fields_spec : FieldsSpec

/-- Source `PodMetadataAnnotator::annotate` (lines 114-149).  The Rust function
mutates the event and returns `Option<LogFileInfo>`; here the result pairs
that option with the final record.  The outer `Option` models panic
propagation from `annotate_from_metadata`: `none` is a panic, `some (none,
ev)` is the early `None` return with the record untouched, and `some (some
fi, ev2)` is the annotated success. -/
def PodMetadataAnnotator.annotate (a : PodMetadataAnnotator) (event : LogEvent)
    (file : String) : Option (Option LogFileInfo × LogEvent) :=
  match parse_log_file_path file with
  | none => some (none, event)
  | some file_info =>
    match a.pods_state_reader file_info.pod_name file_info.pod_namespace with
    | none => some (none, event)
    | some pod =>
      let log := annotate_from_file_info event a.fields_spec file_info
      match annotate_from_metadata log a.fields_spec pod.metadata with
      | none => none
      | some log =>
        let log :=
          match pod.spec with
          | none => log
          | some pod_spec =>
            let log := annotate_from_pod_spec log a.fields_spec pod_spec
            match pod_spec.containers.find?
                (fun c => decide (c.name = file_info.container_name)) with
            | some container => annotate_from_container log a.fields_spec container
            | none => log
        let log :=
          match pod.status with
          | none => log
          | some pod_status =>
            let log := annotate_from_pod_status log a.fields_spec pod_status
            match pod_status.container_statuses with
            | none => log
            | some container_statuses =>
              match container_statuses.find?
                  (fun c => decide (c.name = file_info.container_name)) with
              | some container_status =>
                annotate_from_container_status log a.fields_spec container_status
              | none => log
        some (some file_info, log)

/-- Run a list of (path, value) insertions left to right. -/
def applyInserts (ps : List (FieldPath × Value)) (log : LogEvent) : LogEvent :=
  ps.foldl (fun l pv => l.insert pv.1 pv.2) log

/-- The single optional write a scalar slot produces: one pair when the slot
is enabled and the attribute present, nothing otherwise. -/
def optWrite (key : Option FieldPath) (val : Option String) : List (FieldPath × Value) :=
  match key, val with
  | some k, some v => [(k, Value.str v)]
  | _, _ => []

/-- The writes of `annotate_from_file_info`. -/
def fileInfoWrites (fields_spec : FieldsSpec) (file_info : LogFileInfo) :
    List (FieldPath × Value) :=
  optWrite fields_spec.container_name (some file_info.container_name)

/-- The writes of one label / annotation map under its configured path. -/
def mapWrites (pre : FieldPath) (m : List (String × String)) : List (FieldPath × Value) :=
  m.map fun kv => (pre ++ [kv.1], Value.str kv.2)

/-- The writes of the labels and annotations loops. -/
def mapsWrites (fields_spec : FieldsSpec) (metadata : ObjectMeta) :
    List (FieldPath × Value) :=
  (match metadata.labels, fields_spec.pod_labels with
   | some ls, some pre => mapWrites pre ls
   | _, _ => []) ++
  (match metadata.annotations, fields_spec.pod_annotations with
   | some ans, some pre => mapWrites pre ans
   | _, _ => [])

/-- The writes of `annotate_from_metadata`; `none` when it panics. -/
def metadataWrites (fields_spec : FieldsSpec) (metadata : ObjectMeta) :
    Option (List (FieldPath × Value)) :=
  let base := optWrite fields_spec.pod_name metadata.name
    ++ optWrite fields_spec.pod_namespace metadata.nspace
    ++ optWrite fields_spec.pod_uid metadata.uid
  match fields_spec.pod_owner, metadata.owner_references with
  | some key, some refs =>
    match refs.head? with
    | none => none
    | some r =>
      some (base ++ [(key, Value.str (r.kind ++ "/" ++ r.name))]
        ++ mapsWrites fields_spec metadata)
  | _, _ => some (base ++ mapsWrites fields_spec metadata)

/-- The writes of `annotate_from_pod_spec`. -/
def specWrites (fields_spec : FieldsSpec) (pod_spec : PodSpec) : List (FieldPath × Value) :=
  optWrite fields_spec.pod_node_name pod_spec.node_name

/-- The writes of `annotate_from_container`. -/
def containerWrites (fields_spec : FieldsSpec) (container : Container) :
    List (FieldPath × Value) :=
  optWrite fields_spec.container_image container.image

/-- The writes of `annotate_from_container_status`. -/
def containerStatusWrites (fields_spec : FieldsSpec) (container_status : ContainerStatus) :
    List (FieldPath × Value) :=
  optWrite fields_spec.container_id container_status.container_id

/-- The writes of `annotate_from_pod_status`. -/
def statusWrites (fields_spec : FieldsSpec) (pod_status : PodStatus) :
    List (FieldPath × Value) :=
  optWrite fields_spec.pod_ip pod_status.pod_ip ++
  (match fields_spec.pod_ips, pod_status.pod_ips with
   | some key, some val => [(key, Value.list (val.filterMap PodIP.ip))]
   | _, _ => [])

/-- All writes of a successful `annotate` call, in execution order; `none`
when the metadata projector panics. -/
def podWrites (fields_spec : FieldsSpec) (file_info : LogFileInfo) (pod : Pod) :
    Option (List (FieldPath × Value)) :=
  match metadataWrites fields_spec pod.metadata with
  | none => none
  | some mw =>
    some (fileInfoWrites fields_spec file_info ++ mw ++
      (match pod.spec with
       | none => []
       | some pod_spec =>
         specWrites fields_spec pod_spec ++
         (match pod_spec.containers.find?
             (fun c => decide (c.name = file_info.container_name)) with
          | some container => containerWrites fields_spec container
          | none => [])) ++
      (match pod.status with
       | none => []
       | some pod_status =>
         statusWrites fields_spec pod_status ++
         (match pod_status.container_statuses with
          | none => []
          | some container_statuses =>
            match container_statuses.find?
                (fun c => decide (c.name = file_info.container_name)) with
            | some container_status => containerStatusWrites fields_spec container_status
            | none => [])))

/-- The paths a slot contributes: its configured path when enabled. -/
def slotPath (o : Option FieldPath) : List FieldPath :=
  match o with
  | some p => [p]
  | none => []

/-- The child paths an enabled map slot contributes: the configured path
extended by each raw source key as one segment. -/
def mapChildPaths (o : Option FieldPath) (m : Option (List (String × String))) :
    List FieldPath :=
  match o, m with
  | some pre, some ls => ls.map fun kv => pre ++ [kv.1]
  | _, _ => []

/-- Every path an `annotate` call may touch for a given pod: the enabled
slot paths plus the label / annotation children. -/
def allowedPaths (fields_spec : FieldsSpec) (pod : Pod) : List FieldPath :=
  slotPath fields_spec.container_name ++ slotPath fields_spec.pod_name ++
  slotPath fields_spec.pod_namespace ++ slotPath fields_spec.pod_uid ++
  slotPath fields_spec.pod_owner ++
  mapChildPaths fields_spec.pod_labels pod.metadata.labels ++
  mapChildPaths fields_spec.pod_annotations pod.metadata.annotations ++
  slotPath fields_spec.pod_node_name ++ slotPath fields_spec.container_image ++
  slotPath fields_spec.pod_ip ++ slotPath fields_spec.pod_ips ++
  slotPath fields_spec.container_id

/-- The record binds `p`, and every binding of `p` carries the value `v`. -/
def LogEvent.Bound (log : LogEvent) (p : FieldPath) (v : Value) : Prop :=
  log.hasKey p = true ∧ ∀ kv ∈ log.entries, kv.1 = p → kv.2 = v

/-- Entry lists of equal shape whose entries agree except possibly in the
values stored at key `p`. -/
inductive EntriesRel (p : FieldPath) :
    List (FieldPath × Value) → List (FieldPath × Value) → Prop
  | nil : EntriesRel p [] []
  | cons {a b : FieldPath × Value} {l1 l2 : List (FieldPath × Value)}
      (hk : a.1 = b.1) (hv : a.1 ≠ p → a = b) (h : EntriesRel p l1 l2) :
      EntriesRel p (a :: l1) (b :: l2)

/-- Records that agree except possibly in the values stored at key `p`. -/
def LogRel (p : FieldPath) (l1 l2 : LogEvent) : Prop :=
  EntriesRel p l1.entries l2.entries

/-- The pod of the spec's end-to-end scenario (§8). -/
def pod8 : Pod :=
  { metadata :=
      { name := some "pod0", nspace := some "ns0", uid := some "uid0"
        owner_references := none
        labels := some [("tier", "web")], annotations := none }
    spec := some
      { node_name := some "node1"
        containers := [{ name := "app", image := some "img:v1" }] }
    status := some
      { pod_ip := some "10.0.0.1", pod_ips := none
        container_statuses := some [{ name := "app", container_id := some "cid1" }] } }

/-- A snapshot store holding exactly `pod8` under (pod0, ns0). -/
def store8 : String → String → Option Pod := fun n ns =>
  if n = "pod0" ∧ ns = "ns0" then some pod8 else none

/-- The record the end-to-end scenario must produce. -/
def expected8 : LogEvent :=
  ⟨[(["kubernetes", "container_name"], Value.str "app"),
    (["kubernetes", "pod_name"], Value.str "pod0"),
    (["kubernetes", "pod_namespace"], Value.str "ns0"),
    (["kubernetes", "pod_uid"], Value.str "uid0"),
    (["kubernetes", "pod_labels", "tier"], Value.str "web"),
    (["kubernetes", "pod_node_name"], Value.str "node1"),
    (["kubernetes", "container_image"], Value.str "img:v1"),
    (["kubernetes", "pod_ip"], Value.str "10.0.0.1"),
    (["kubernetes", "container_id"], Value.str "cid1")]⟩

/-- Object metadata whose owner-reference list is present but empty: the
input on which `owner_references[0]` panics. -/
def mBad : ObjectMeta :=
  { name := none, nspace := none, uid := none
    owner_references := some [], labels := none, annotations := none }

/-- A pod carrying `mBad`. -/
def podBad : Pod := { metadata := mBad, spec := none, status := none }

/-- A snapshot store holding exactly `podBad` under (podA, nsA). -/
def storeBad : String → String → Option Pod := fun n ns =>
  if n = "podA" ∧ ns = "nsA" then some podBad else none

/-- Metadata that is present (`Some`) on the owner-reference attribute and
on nothing else. -/
def mBad2 : ObjectMeta :=
  { name := some "x", nspace := none, uid := none
    owner_references := some [], labels := none, annotations := none }

/-- A pod with two containers named `app` (first has image `img1`) behind a
decoy container, for the first-match scenario. -/
def pod7 : Pod :=
  { metadata :=
      { name := some "podB", nspace := some "nsB", uid := some "uidB"
        owner_references := none, labels := none, annotations := none }
    spec := some
      { node_name := none
        containers := [⟨"other", some "imgX"⟩, ⟨"app", some "img1"⟩,
          ⟨"app", some "img2"⟩] }
    status := some
      { pod_ip := none, pod_ips := none
        container_statuses := some [⟨"app", some "cidA"⟩] } }

/-- A snapshot store holding exactly `pod7` under (podB, nsB). -/
def store7 : String → String → Option Pod := fun n ns =>
  if n = "podB" ∧ ns = "nsB" then some pod7 else none

/-- Overwriting at `p` does not disturb lookups at other keys. -/
theorem find?_overwrite_ne (p q : FieldPath) (v : Value) (es : List (FieldPath × Value))
    (hqp : q ≠ p) :
    (es.map fun kv => if kv.1 = p then (p, v) else kv).find?
        (fun kv => decide (kv.1 = q)) =
      es.find? (fun kv => decide (kv.1 = q)) := by
  induction es with
  | nil => rfl
  | cons a es ih =>
    simp only [List.map_cons]
    by_cases hap : a.1 = p
    · rw [if_pos hap, List.find?_cons_of_neg _ (by simp [Ne.symm hqp]),
        List.find?_cons_of_neg _ (by simp [hap, Ne.symm hqp])]
      exact ih
    · rw [if_neg hap]
      by_cases haq : a.1 = q
      · rw [List.find?_cons_of_pos _ (by simp [haq]), List.find?_cons_of_pos _ (by simp [haq])]
      · rw [List.find?_cons_of_neg _ (by simp [haq]), List.find?_cons_of_neg _ (by simp [haq])]
        exact ih

/-- After overwriting at a present key `p`, looking up `p` finds the new value. -/
theorem find?_overwrite_self (p : FieldPath) (v : Value) (es : List (FieldPath × Value))
    (h : es.any (fun kv => decide (kv.1 = p)) = true) :
    (es.map fun kv => if kv.1 = p then (p, v) else kv).find?
        (fun kv => decide (kv.1 = p)) = some (p, v) := by
  induction es with
  | nil => simp at h
  | cons a es ih =>
    simp only [List.map_cons]
    by_cases hap : a.1 = p
    · rw [if_pos hap, List.find?_cons_of_pos _ (by simp)]
    · rw [if_neg hap, List.find?_cons_of_neg _ (by simp [hap])]
      refine ih ?_
      simp only [List.any_cons, Bool.or_eq_true, decide_eq_true_eq] at h
      rcases h with h | h
      · exact absurd h hap
      · exact h

/-- Lookup through a one-element extension on the right. -/
theorem find?_append_one (pr : FieldPath × Value → Bool) (es : List (FieldPath × Value))
    (x : FieldPath × Value) :
    (es ++ [x]).find? pr =
      match es.find? pr with
      | some y => some y
      | none => if pr x then some x else none := by
  induction es with
  | nil => cases h : pr x <;> simp [List.find?, h]
  | cons a es ih =>
    cases h : pr a
    · rw [List.cons_append, List.find?_cons_of_neg _ (by simp [h]),
        List.find?_cons_of_neg _ (by simp [h]), ih]
    · rw [List.cons_append, List.find?_cons_of_pos _ h, List.find?_cons_of_pos _ h]

/-- The characterizing lemma of the record primitive: reading after an
insert sees the inserted value at its path and is unchanged elsewhere. -/
theorem LogEvent.get_insert (log : LogEvent) (p : FieldPath) (v : Value) (q : FieldPath) :
    (log.insert p v).get q = if q = p then some v else log.get q := by
  unfold LogEvent.insert
  by_cases h : log.hasKey p = true
  · rw [if_pos h]
    by_cases hqp : q = p
    · subst hqp
      unfold LogEvent.get
      simp only [if_pos rfl]
      rw [find?_overwrite_self q v log.entries h]
      rfl
    · unfold LogEvent.get
      rw [if_neg hqp, find?_overwrite_ne p q v log.entries hqp]
  · rw [if_neg h]
    unfold LogEvent.get
    rw [find?_append_one]
    unfold LogEvent.hasKey at h
    have hnone : log.entries.find? (fun kv => decide (kv.1 = p)) = none := by
      rw [List.find?_eq_none]
      intro x hx
      simp only [decide_eq_true_eq]
      intro hxp
      exact h (List.any_eq_true.mpr ⟨x, hx, by simp [hxp]⟩)
    by_cases hqp : q = p
    · subst hqp
      rw [hnone]
      simp
    · rw [if_neg hqp]
      cases hf : log.entries.find? (fun kv => decide (kv.1 = q)) with
      | none => simp [hqp, Ne.symm hqp]
      | some y => simp

/-- Inserting at `p` makes `p` a bound key. -/
theorem LogEvent.hasKey_insert_self (log : LogEvent) (p : FieldPath) (v : Value) :
    (log.insert p v).hasKey p = true := by
  unfold LogEvent.insert
  by_cases h : log.hasKey p = true
  · rw [if_pos h]
    unfold LogEvent.hasKey at h ⊢
    rcases List.any_eq_true.mp h with ⟨kv, hkv, hp⟩
    simp only [decide_eq_true_eq] at hp
    exact List.any_eq_true.mpr ⟨(p, v), List.mem_map.mpr ⟨kv, hkv, by rw [if_pos hp]⟩, by simp⟩
  · rw [if_neg h]
    unfold LogEvent.hasKey
    exact List.any_eq_true.mpr ⟨(p, v), by simp⟩

/-- Inserting never removes a bound key. -/
theorem LogEvent.hasKey_insert_mono (log : LogEvent) (p q : FieldPath) (v : Value)
    (h : log.hasKey q = true) : (log.insert p v).hasKey q = true := by
  unfold LogEvent.insert
  by_cases hp : log.hasKey p = true
  · rw [if_pos hp]
    unfold LogEvent.hasKey at h ⊢
    rcases List.any_eq_true.mp h with ⟨kv, hkv, hq⟩
    simp only [decide_eq_true_eq] at hq
    by_cases hkp : kv.1 = p
    · exact List.any_eq_true.mpr
        ⟨(p, v), List.mem_map.mpr ⟨kv, hkv, by rw [if_pos hkp]⟩, by simp [← hkp, hq]⟩
    · exact List.any_eq_true.mpr
        ⟨kv, List.mem_map.mpr ⟨kv, hkv, by rw [if_neg hkp]⟩, by simp [hq]⟩
  · rw [if_neg hp]
    unfold LogEvent.hasKey at h ⊢
    rcases List.any_eq_true.mp h with ⟨kv, hkv, hq⟩
    exact List.any_eq_true.mpr ⟨kv, List.mem_append_left _ hkv, hq⟩

/-- When every binding of `p` already carries `v`, inserting `v` at `p`
changes nothing. -/
theorem LogEvent.insert_of_bound (log : LogEvent) (p : FieldPath) (v : Value)
    (h : log.Bound p v) : log.insert p v = log := by
  obtain ⟨hk, hv⟩ := h
  unfold LogEvent.insert
  rw [if_pos hk]
  have hmap : (log.entries.map fun kv => if kv.1 = p then (p, v) else kv) = log.entries := by
    have := List.map_congr_left (l := log.entries)
      (f := fun kv => if kv.1 = p then (p, v) else kv) (g := id) ?_
    · rw [this, List.map_id]
    · intro a ha
      show (if a.1 = p then (p, v) else a) = a
      by_cases hap : a.1 = p
      · rw [if_pos hap, ← hap, ← hv a ha hap]
      · rw [if_neg hap]
  rw [hmap]

/-- After inserting `v` at `p`, every binding of `p` carries `v`. -/
theorem LogEvent.bound_insert_self (log : LogEvent) (p : FieldPath) (v : Value) :
    (log.insert p v).Bound p v := by
  refine ⟨log.hasKey_insert_self p v, ?_⟩
  unfold LogEvent.insert
  by_cases h : log.hasKey p = true
  · rw [if_pos h]
    intro kv hkv hp
    rcases List.mem_map.mp hkv with ⟨a, _, ha⟩
    by_cases hap : a.1 = p
    · rw [if_pos hap] at ha
      rw [← ha]
    · rw [if_neg hap] at ha
      rw [← ha] at hp
      exact absurd hp hap
  · rw [if_neg h]
    intro kv hkv hp
    rcases List.mem_append.mp hkv with hin | hin
    · exfalso
      exact h (List.any_eq_true.mpr ⟨kv, hin, by simp [hp]⟩)
    · rcases List.mem_singleton.mp hin with rfl
      rfl

/-- Inserting at another key preserves a bound value. -/
theorem LogEvent.bound_insert_ne (log : LogEvent) (p q : FieldPath) (v w : Value)
    (hqp : q ≠ p) (h : log.Bound p v) : (log.insert q w).Bound p v := by
  obtain ⟨hk, hv⟩ := h
  refine ⟨log.hasKey_insert_mono q p w hk, ?_⟩
  unfold LogEvent.insert
  by_cases hq : log.hasKey q = true
  · rw [if_pos hq]
    intro kv hkv hp
    rcases List.mem_map.mp hkv with ⟨a, ha, hmap⟩
    by_cases haq : a.1 = q
    · rw [if_pos haq] at hmap
      rw [← hmap] at hp
      exact absurd hp hqp
    · rw [if_neg haq] at hmap
      rw [← hmap] at hp ⊢
      exact hv a ha hp
  · rw [if_neg hq]
    intro kv hkv hp
    rcases List.mem_append.mp hkv with hin | hin
    · exact hv kv hin hp
    · rcases List.mem_singleton.mp hin with rfl
      exact absurd hp hqp

theorem entriesRel_refl (p : FieldPath) (es : List (FieldPath × Value)) :
    EntriesRel p es es := by
  induction es with
  | nil => exact .nil
  | cons a es ih => exact .cons (Eq.refl a.1) (fun _ => Eq.refl a) ih

theorem logRel_refl (p : FieldPath) (log : LogEvent) : LogRel p log log :=
  entriesRel_refl p log.entries

theorem EntriesRel.any_eq {p : FieldPath} {es1 es2 : List (FieldPath × Value)}
    (h : EntriesRel p es1 es2) (r : FieldPath) :
    es1.any (fun kv => decide (kv.1 = r)) = es2.any (fun kv => decide (kv.1 = r)) := by
  induction h with
  | nil => rfl
  | cons hk _ _ ih => simp [List.any_cons, hk, ih]

theorem LogRel.hasKey_eq {p : FieldPath} {l1 l2 : LogEvent} (h : LogRel p l1 l2)
    (r : FieldPath) : l1.hasKey r = l2.hasKey r :=
  EntriesRel.any_eq h r

theorem EntriesRel.eq_of_no_key {p : FieldPath} {es1 es2 : List (FieldPath × Value)}
    (h : EntriesRel p es1 es2) (hno : ∀ kv ∈ es1, kv.1 ≠ p) : es1 = es2 := by
  induction h with
  | nil => rfl
  | cons hk hv _ ih =>
    rw [hv (hno _ (List.mem_cons_self _ _)), ih fun kv hkv => hno kv (List.mem_cons_of_mem _ hkv)]

theorem EntriesRel.map_overwrite_eq {p : FieldPath} {es1 es2 : List (FieldPath × Value)}
    (h : EntriesRel p es1 es2) (v : Value) :
    (es1.map fun kv => if kv.1 = p then (p, v) else kv) =
      es2.map fun kv => if kv.1 = p then (p, v) else kv := by
  induction h with
  | nil => rfl
  | @cons a b l1 l2 hk hv _ ih =>
    simp only [List.map_cons, ih]
    congr 1
    by_cases hap : a.1 = p
    · rw [if_pos hap, if_pos (hk ▸ hap)]
    · rw [if_neg hap, if_neg (hk ▸ hap), hv hap]

/-- Records that differ only at key `p` coincide after inserting at `p`. -/
theorem LogRel.insert_eq {p : FieldPath} {l1 l2 : LogEvent} (h : LogRel p l1 l2)
    (v : Value) : l1.insert p v = l2.insert p v := by
  unfold LogEvent.insert
  rw [← h.hasKey_eq p]
  by_cases hk : l1.hasKey p = true
  · rw [if_pos hk, if_pos hk, EntriesRel.map_overwrite_eq h v]
  · rw [if_neg hk, if_neg hk]
    unfold LogEvent.hasKey at hk
    have hno : ∀ kv ∈ l1.entries, kv.1 ≠ p := by
      intro kv hkv hp
      exact hk (List.any_eq_true.mpr ⟨kv, hkv, by simp [hp]⟩)
    rw [EntriesRel.eq_of_no_key h hno]

theorem EntriesRel.append {p : FieldPath} {es1 es2 t1 t2 : List (FieldPath × Value)}
    (h : EntriesRel p es1 es2) (ht : EntriesRel p t1 t2) :
    EntriesRel p (es1 ++ t1) (es2 ++ t2) := by
  induction h with
  | nil => exact ht
  | cons hk hv _ ih => exact .cons hk hv ih

theorem EntriesRel.map_insert {p q : FieldPath} {es1 es2 : List (FieldPath × Value)}
    (h : EntriesRel p es1 es2) (w : Value) :
    EntriesRel p (es1.map fun kv => if kv.1 = q then (q, w) else kv)
      (es2.map fun kv => if kv.1 = q then (q, w) else kv) := by
  induction h with
  | nil => exact .nil
  | @cons a b t1 t2 hk2 hv _ ih =>
    simp only [List.map_cons]
    refine .cons ?_ ?_ ih
    · by_cases haq : a.1 = q
      · rw [if_pos haq, if_pos (hk2 ▸ haq)]
      · rw [if_neg haq, if_neg (hk2 ▸ haq)]
        exact hk2
    · by_cases haq : a.1 = q
      · intro _
        rw [if_pos haq, if_pos (hk2 ▸ haq)]
      · intro hap
        rw [if_neg haq, if_neg (hk2 ▸ haq)]
        exact hv (by rw [if_neg haq] at hap; exact hap)

/-- Inserting the same pair on both sides preserves agreement off `p`. -/
theorem LogRel.insert {p q : FieldPath} {l1 l2 : LogEvent} (h : LogRel p l1 l2)
    (w : Value) : LogRel p (l1.insert q w) (l2.insert q w) := by
  by_cases hqp : q = p
  · subst hqp
    rw [h.insert_eq w]
    exact logRel_refl q _
  · unfold LogEvent.insert
    rw [← h.hasKey_eq q]
    by_cases hk : l1.hasKey q = true
    · rw [if_pos hk, if_pos hk]
      exact EntriesRel.map_insert h w
    · rw [if_neg hk, if_neg hk]
      exact EntriesRel.append h (.cons (Eq.refl q) (fun _ => Eq.refl (q, w)) .nil)

/-- Agreement off `p` when the record is extended by overwriting at a key
that is already bound. -/
theorem LogRel.insert_self_right (p : FieldPath) (log : LogEvent) (v : Value)
    (hk : log.hasKey p = true) : LogRel p log (log.insert p v) := by
  unfold LogEvent.insert
  rw [if_pos hk]
  unfold LogRel
  show EntriesRel p log.entries (log.entries.map fun kv => if kv.1 = p then (p, v) else kv)
  induction log.entries with
  | nil => exact .nil
  | cons a es ih =>
    simp only [List.map_cons]
    refine .cons ?_ ?_ ih
    · by_cases hap : a.1 = p
      · rw [if_pos hap, hap]
      · rw [if_neg hap]
    · intro hap
      rw [if_neg hap]

theorem applyInserts_nil (log : LogEvent) : applyInserts [] log = log := rfl

theorem applyInserts_cons (r : FieldPath × Value) (ps : List (FieldPath × Value))
    (log : LogEvent) :
    applyInserts (r :: ps) log = applyInserts ps (log.insert r.1 r.2) := rfl

theorem applyInserts_append (ps1 ps2 : List (FieldPath × Value)) (log : LogEvent) :
    applyInserts (ps1 ++ ps2) log = applyInserts ps2 (applyInserts ps1 log) := by
  unfold applyInserts
  exact List.foldl_append _ _ _ _

theorem applyInserts_hasKey_mono (ps : List (FieldPath × Value)) (log : LogEvent)
    (q : FieldPath) (h : log.hasKey q = true) :
    (applyInserts ps log).hasKey q = true := by
  induction ps generalizing log with
  | nil => exact h
  | cons r ps ih =>
    rw [applyInserts_cons]
    exact ih _ (log.hasKey_insert_mono r.1 q r.2 h)

theorem applyInserts_bound (ps : List (FieldPath × Value)) (log : LogEvent)
    (p : FieldPath) (v : Value) (hnp : ∀ pair ∈ ps, pair.1 ≠ p)
    (hb : log.Bound p v) : (applyInserts ps log).Bound p v := by
  induction ps generalizing log with
  | nil => exact hb
  | cons r ps ih =>
    rw [applyInserts_cons]
    exact ih _ (fun pair hp => hnp pair (List.mem_cons_of_mem _ hp))
      (log.bound_insert_ne p r.1 v r.2 (hnp r (List.mem_cons_self _ _)) hb)

/-- Frame: a chain of inserts leaves every untouched path unchanged. -/
theorem applyInserts_get_frame (ps : List (FieldPath × Value)) (log : LogEvent)
    (q : FieldPath) (h : ∀ pair ∈ ps, pair.1 ≠ q) :
    (applyInserts ps log).get q = log.get q := by
  induction ps generalizing log with
  | nil => rfl
  | cons r ps ih =>
    rw [applyInserts_cons, ih _ (fun pair hp => h pair (List.mem_cons_of_mem _ hp)),
      LogEvent.get_insert]
    rw [if_neg fun hq => h r (List.mem_cons_self _ _) hq.symm]

/-- Reading the path of a write whose later writes all target other paths
sees the written value. -/
theorem applyInserts_get_last (w1 w2 : List (FieldPath × Value)) (log : LogEvent)
    (p : FieldPath) (v : Value) (h : ∀ pair ∈ w2, pair.1 ≠ p) :
    (applyInserts (w1 ++ (p, v) :: w2) log).get p = some v := by
  have : w1 ++ (p, v) :: w2 = (w1 ++ [(p, v)]) ++ w2 := by simp
  rw [this, applyInserts_append, applyInserts_get_frame _ _ _ h, applyInserts_append,
    applyInserts_cons, applyInserts_nil, LogEvent.get_insert, if_pos rfl]

/-- Records agreeing off `p` are identified by any insert chain that
rewrites `p`. -/
theorem applyInserts_eq_of_rel {p : FieldPath} {l1 l2 : LogEvent}
    (ps : List (FieldPath × Value)) (h : LogRel p l1 l2)
    (hp : ∃ pair ∈ ps, pair.1 = p) : applyInserts ps l1 = applyInserts ps l2 := by
  induction ps generalizing l1 l2 with
  | nil =>
    rcases hp with ⟨pair, hmem, _⟩
    exact absurd hmem (List.not_mem_nil pair)
  | cons r ps ih =>
    rw [applyInserts_cons, applyInserts_cons]
    by_cases hr : r.1 = p
    · rw [hr, h.insert_eq r.2]
    · rcases hp with ⟨pair, hmem, hpairp⟩
      rcases List.mem_cons.mp hmem with rfl | hmem2
      · exact absurd hpairp hr
      · exact ih (h.insert r.2) ⟨pair, hmem2, hpairp⟩

/-- Applying the same insert chain twice is the same as applying it once. -/
theorem applyInserts_idem (ps : List (FieldPath × Value)) (log : LogEvent) :
    applyInserts ps (applyInserts ps log) = applyInserts ps log := by
  induction ps generalizing log with
  | nil => rfl
  | cons r ps ih =>
    rw [applyInserts_cons, applyInserts_cons]
    have hm : applyInserts ps (applyInserts ps (log.insert r.1 r.2)) =
        applyInserts ps (log.insert r.1 r.2) := ih _
    by_cases hk : ∃ pair ∈ ps, pair.1 = r.1
    · have hkey : (applyInserts ps (log.insert r.1 r.2)).hasKey r.1 = true :=
        applyInserts_hasKey_mono _ _ _ (log.hasKey_insert_self r.1 r.2)
      have hrel : LogRel r.1 (applyInserts ps (log.insert r.1 r.2))
          ((applyInserts ps (log.insert r.1 r.2)).insert r.1 r.2) :=
        LogRel.insert_self_right r.1 _ r.2 hkey
      rw [← applyInserts_eq_of_rel ps hrel hk]
      exact hm
    · push_neg at hk
      have hb : (applyInserts ps (log.insert r.1 r.2)).Bound r.1 r.2 :=
        applyInserts_bound ps _ r.1 r.2 hk (log.bound_insert_self r.1 r.2)
      rw [LogEvent.insert_of_bound _ _ _ hb]
      exact hm

theorem insertIfBoth_eq (log : LogEvent) (key : Option FieldPath) (val : Option String) :
    insertIfBoth log key val = applyInserts (optWrite key val) log := by
  cases key <;> cases val <;> rfl

theorem annotate_from_file_info_eq (log : LogEvent) (fields_spec : FieldsSpec)
    (file_info : LogFileInfo) :
    annotate_from_file_info log fields_spec file_info =
      applyInserts (fileInfoWrites fields_spec file_info) log := by
  unfold annotate_from_file_info fileInfoWrites optWrite
  cases fields_spec.container_name <;> rfl

theorem mapFold_eq (log : LogEvent) (pre : FieldPath) (m : List (String × String)) :
    m.foldl (fun l kv => l.insert (pre ++ [kv.1]) (Value.str kv.2)) log =
      applyInserts (mapWrites pre m) log := by
  unfold applyInserts mapWrites
  rw [List.foldl_map]

theorem insertMaps_eq (log : LogEvent) (fields_spec : FieldsSpec) (metadata : ObjectMeta) :
    insertMaps log fields_spec metadata =
      applyInserts (mapsWrites fields_spec metadata) log := by
  unfold insertMaps mapsWrites
  rw [applyInserts_append]
  cases metadata.labels <;> cases fields_spec.pod_labels <;>
    cases metadata.annotations <;> cases fields_spec.pod_annotations <;>
    simp only [applyInserts_nil, mapFold_eq]

theorem annotate_from_metadata_eq (log : LogEvent) (fields_spec : FieldsSpec)
    (metadata : ObjectMeta) :
    annotate_from_metadata log fields_spec metadata =
      (metadataWrites fields_spec metadata).map fun w => applyInserts w log := by
  unfold annotate_from_metadata metadataWrites
  cases ho : fields_spec.pod_owner with
  | none =>
    simp only [Option.map_some']
    rw [insertMaps_eq]
    cases metadata.owner_references <;>
      simp only [applyInserts_append, insertIfBoth_eq]
  | some key =>
    cases hr : metadata.owner_references with
    | none =>
      simp only [Option.map_some']
      rw [insertMaps_eq]
      simp only [applyInserts_append, insertIfBoth_eq]
    | some refs =>
      cases refs with
      | nil => rfl
      | cons r rest =>
        simp only [List.head?_cons, Option.map_some']
        rw [insertMaps_eq]
        simp only [applyInserts_append, insertIfBoth_eq, applyInserts_cons,
          applyInserts_nil]

theorem annotate_from_pod_spec_eq (log : LogEvent) (fields_spec : FieldsSpec)
    (pod_spec : PodSpec) :
    annotate_from_pod_spec log fields_spec pod_spec =
      applyInserts (specWrites fields_spec pod_spec) log :=
  insertIfBoth_eq log _ _

theorem annotate_from_container_eq (log : LogEvent) (fields_spec : FieldsSpec)
    (container : Container) :
    annotate_from_container log fields_spec container =
      applyInserts (containerWrites fields_spec container) log :=
  insertIfBoth_eq log _ _

theorem annotate_from_container_status_eq (log : LogEvent) (fields_spec : FieldsSpec)
    (container_status : ContainerStatus) :
    annotate_from_container_status log fields_spec container_status =
      applyInserts (containerStatusWrites fields_spec container_status) log :=
  insertIfBoth_eq log _ _

theorem annotate_from_pod_status_eq (log : LogEvent) (fields_spec : FieldsSpec)
    (pod_status : PodStatus) :
    annotate_from_pod_status log fields_spec pod_status =
      applyInserts (statusWrites fields_spec pod_status) log := by
  unfold annotate_from_pod_status statusWrites
  rw [applyInserts_append, insertIfBoth_eq]
  cases fields_spec.pod_ips <;> cases pod_status.pod_ips <;> rfl

/-- On a parse hit and a store hit, `annotate` is exactly the insert chain
`podWrites` applied to the incoming record (and panics iff `podWrites`
does). -/
theorem annotate_success (a : PodMetadataAnnotator) (event : LogEvent) (file : String)
    (file_info : LogFileInfo) (pod : Pod)
    (hp : parse_log_file_path file = some file_info)
    (hs : a.pods_state_reader file_info.pod_name file_info.pod_namespace = some pod) :
    a.annotate event file =
      (podWrites a.fields_spec file_info pod).map fun w =>
        (some file_info, applyInserts w event) := by
  unfold PodMetadataAnnotator.annotate podWrites
  rw [hp]
  dsimp only
  rw [hs]
  dsimp only
  cases hmw : metadataWrites a.fields_spec pod.metadata with
  | none =>
    rw [annotate_from_metadata_eq, hmw]
    rfl
  | some mw =>
    rw [annotate_from_metadata_eq, hmw]
    simp only [Option.map_some']
    rw [annotate_from_file_info_eq]
    cases hsp : pod.spec with
    | none =>
      simp only [hsp]
      cases hst : pod.status with
      | none =>
        simp only [hst, applyInserts_append, applyInserts_nil]
      | some pod_status =>
        simp only [hst, annotate_from_pod_status_eq]
        cases hcs : pod_status.container_statuses with
        | none =>
          simp only [hcs, applyInserts_append, applyInserts_nil]
        | some css =>
          simp only [hcs]
          cases hfind : css.find? fun c => decide (c.name = file_info.container_name) with
          | none =>
            simp only [hfind, applyInserts_append, applyInserts_nil]
          | some container_status =>
            simp only [hfind, annotate_from_container_status_eq,
              applyInserts_append, applyInserts_nil]
    | some pod_spec =>
      simp only [hsp, annotate_from_pod_spec_eq]
      cases hfc : pod_spec.containers.find? fun c => decide (c.name = file_info.container_name) with
      | none =>
        simp only [hfc]
        cases hst : pod.status with
        | none =>
          simp only [hst, applyInserts_append, applyInserts_nil]
        | some pod_status =>
          simp only [hst, annotate_from_pod_status_eq]
          cases hcs : pod_status.container_statuses with
          | none =>
            simp only [hcs, applyInserts_append, applyInserts_nil]
          | some css =>
            simp only [hcs]
            cases hfind : css.find? fun c => decide (c.name = file_info.container_name) with
            | none =>
              simp only [hfind, applyInserts_append, applyInserts_nil]
            | some container_status =>
              simp only [hfind, annotate_from_container_status_eq,
                applyInserts_append, applyInserts_nil]
      | some container =>
        simp only [hfc, annotate_from_container_eq]
        cases hst : pod.status with
        | none =>
          simp only [hst, applyInserts_append, applyInserts_nil]
        | some pod_status =>
          simp only [hst, annotate_from_pod_status_eq]
          cases hcs : pod_status.container_statuses with
          | none =>
            simp only [hcs, applyInserts_append, applyInserts_nil]
          | some css =>
            simp only [hcs]
            cases hfind : css.find? fun c => decide (c.name = file_info.container_name) with
            | none =>
              simp only [hfind, applyInserts_append, applyInserts_nil]
            | some container_status =>
              simp only [hfind, annotate_from_container_status_eq,
                applyInserts_append, applyInserts_nil]

/-- An unparseable path short-circuits `annotate`: no match, no mutation. -/
theorem annotate_parse_fail (a : PodMetadataAnnotator) (event : LogEvent) (file : String)
    (hp : parse_log_file_path file = none) :
    a.annotate event file = some (none, event) := by
  unfold PodMetadataAnnotator.annotate
  rw [hp]

/-- A cache miss short-circuits `annotate`: no match, no mutation. -/
theorem annotate_store_miss (a : PodMetadataAnnotator) (event : LogEvent) (file : String)
    (file_info : LogFileInfo) (hp : parse_log_file_path file = some file_info)
    (hs : a.pods_state_reader file_info.pod_name file_info.pod_namespace = none) :
    a.annotate event file = some (none, event) := by
  unfold PodMetadataAnnotator.annotate
  rw [hp]
  dsimp only
  rw [hs]

theorem optWrite_mem (p : FieldPath) (w : Value) (key : Option FieldPath)
    (val : Option String) :
    (p, w) ∈ optWrite key val ↔ key = some p ∧ ∃ s, val = some s ∧ w = Value.str s := by
  cases key <;> cases val <;>
    simp [optWrite, Prod.ext_iff, and_comm, eq_comm]

theorem mapWrites_mem (p : FieldPath) (w : Value) (pre : FieldPath)
    (m : List (String × String)) :
    (p, w) ∈ mapWrites pre m ↔ ∃ kv ∈ m, p = pre ++ [kv.1] ∧ w = Value.str kv.2 := by
  simp [mapWrites, List.mem_map, Prod.ext_iff, eq_comm]

theorem mapsWrites_mem (p : FieldPath) (w : Value) (fields_spec : FieldsSpec)
    (metadata : ObjectMeta) :
    (p, w) ∈ mapsWrites fields_spec metadata ↔
      (∃ pre ls, fields_spec.pod_labels = some pre ∧ metadata.labels = some ls ∧
        ∃ kv ∈ ls, p = pre ++ [kv.1] ∧ w = Value.str kv.2) ∨
      (∃ pre ls, fields_spec.pod_annotations = some pre ∧ metadata.annotations = some ls ∧
        ∃ kv ∈ ls, p = pre ++ [kv.1] ∧ w = Value.str kv.2) := by
  unfold mapsWrites
  rw [List.mem_append]
  apply or_congr
  · cases hl : metadata.labels <;> cases hpl : fields_spec.pod_labels <;>
      simp [mapWrites_mem]
  · cases hl : metadata.annotations <;> cases hpl : fields_spec.pod_annotations <;>
      simp [mapWrites_mem]

theorem statusWrites_mem (p : FieldPath) (w : Value) (fields_spec : FieldsSpec)
    (pod_status : PodStatus) :
    (p, w) ∈ statusWrites fields_spec pod_status ↔
      (fields_spec.pod_ip = some p ∧ ∃ v, pod_status.pod_ip = some v ∧ w = Value.str v) ∨
      (fields_spec.pod_ips = some p ∧ ∃ ips, pod_status.pod_ips = some ips ∧
        w = Value.list (ips.filterMap PodIP.ip)) := by
  unfold statusWrites
  rw [List.mem_append]
  apply or_congr
  · exact optWrite_mem p w _ _
  · cases hips : fields_spec.pod_ips <;> cases hps : pod_status.pod_ips <;>
      simp [Prod.ext_iff, eq_comm]

/-- The metadata projector panics exactly on an enabled `pod_owner` slot
meeting a present-but-empty owner-reference list. -/
theorem metadataWrites_none_iff (fields_spec : FieldsSpec) (metadata : ObjectMeta) :
    metadataWrites fields_spec metadata = none ↔
      (∃ key, fields_spec.pod_owner = some key) ∧ metadata.owner_references = some [] := by
  unfold metadataWrites
  cases ho : fields_spec.pod_owner with
  | none => simp
  | some key =>
    cases hr : metadata.owner_references with
    | none => simp
    | some refs => cases refs <;> simp

theorem metadataWrites_some_mem (p : FieldPath) (w : Value) (fields_spec : FieldsSpec)
    (metadata : ObjectMeta) (mw : List (FieldPath × Value))
    (hmw : metadataWrites fields_spec metadata = some mw) :
    (p, w) ∈ mw ↔
      (fields_spec.pod_name = some p ∧ ∃ v, metadata.name = some v ∧ w = Value.str v) ∨
      (fields_spec.pod_namespace = some p ∧ ∃ v, metadata.nspace = some v ∧ w = Value.str v) ∨
      (fields_spec.pod_uid = some p ∧ ∃ v, metadata.uid = some v ∧ w = Value.str v) ∨
      (fields_spec.pod_owner = some p ∧ ∃ r rest,
        metadata.owner_references = some (r :: rest) ∧
        w = Value.str (r.kind ++ "/" ++ r.name)) ∨
      (∃ pre ls, fields_spec.pod_labels = some pre ∧ metadata.labels = some ls ∧
        ∃ kv ∈ ls, p = pre ++ [kv.1] ∧ w = Value.str kv.2) ∨
      (∃ pre ls, fields_spec.pod_annotations = some pre ∧ metadata.annotations = some ls ∧
        ∃ kv ∈ ls, p = pre ++ [kv.1] ∧ w = Value.str kv.2) := by
  unfold metadataWrites at hmw
  cases ho : fields_spec.pod_owner with
  | none =>
    rw [ho] at hmw
    simp only [Option.some.injEq] at hmw
    subst hmw
    simp [List.append_assoc, List.mem_append, optWrite_mem, mapsWrites_mem, ho,
      or_assoc, and_assoc, eq_comm]
  | some key =>
    rw [ho] at hmw
    cases hr : metadata.owner_references with
    | none =>
      rw [hr] at hmw
      simp only [Option.some.injEq] at hmw
      subst hmw
      simp [List.append_assoc, List.mem_append, optWrite_mem, mapsWrites_mem, ho, hr,
        or_assoc, and_assoc, eq_comm]
    | some refs =>
      rw [hr] at hmw
      cases refs with
      | nil => simp at hmw
      | cons r rest =>
        simp only [List.head?_cons, Option.some.injEq] at hmw
        subst hmw
        simp [List.append_assoc, List.mem_append, optWrite_mem, mapsWrites_mem, ho, hr,
          or_assoc, and_assoc, eq_comm]

/-- A predicate that fails on a whole leading block finds the first hit
after it. -/
theorem find?_first {α : Type} (pr : α → Bool) (l1 l2 : List α) (c : α)
    (h1 : ∀ x ∈ l1, pr x = false) (hc : pr c = true) :
    (l1 ++ c :: l2).find? pr = some c := by
  induction l1 with
  | nil => exact List.find?_cons_of_pos _ hc
  | cons a l1 ih =>
    rw [List.cons_append, List.find?_cons_of_neg _ (by simp [h1 a (List.mem_cons_self a l1)])]
    exact ih fun x hx => h1 x (List.mem_cons_of_mem _ hx)

/-- Where each pair of a successful `annotate`'s write chain can come from. -/
theorem podWrites_mem (fields_spec : FieldsSpec) (file_info : LogFileInfo) (pod : Pod)
    (w : List (FieldPath × Value)) (p : FieldPath) (v : Value)
    (hw : podWrites fields_spec file_info pod = some w) (hmem : (p, v) ∈ w) :
    fields_spec.container_name = some p ∨
    fields_spec.pod_name = some p ∨
    fields_spec.pod_namespace = some p ∨
    fields_spec.pod_uid = some p ∨
    fields_spec.pod_owner = some p ∨
    (∃ pre ls, fields_spec.pod_labels = some pre ∧ pod.metadata.labels = some ls ∧
      ∃ kv ∈ ls, p = pre ++ [kv.1]) ∨
    (∃ pre ls, fields_spec.pod_annotations = some pre ∧
      pod.metadata.annotations = some ls ∧ ∃ kv ∈ ls, p = pre ++ [kv.1]) ∨
    fields_spec.pod_node_name = some p ∨
    (fields_spec.container_image = some p ∧ ∃ sp c, pod.spec = some sp ∧
      sp.containers.find? (fun c2 => decide (c2.name = file_info.container_name)) = some c) ∨
    fields_spec.pod_ip = some p ∨
    fields_spec.pod_ips = some p ∨
    (fields_spec.container_id = some p ∧ ∃ st css cs, pod.status = some st ∧
      st.container_statuses = some css ∧
      css.find? (fun c2 => decide (c2.name = file_info.container_name)) = some cs) := by
  unfold podWrites at hw
  cases hmw : metadataWrites fields_spec pod.metadata with
  | none => rw [hmw] at hw; exact absurd hw (by simp)
  | some mw =>
    rw [hmw] at hw
    simp only [Option.some.injEq] at hw
    subst hw
    simp only [List.append_assoc, List.mem_append] at hmem
    rcases hmem with hfi | hmd | hsp | hst
    · rcases (optWrite_mem p v _ _).mp hfi with ⟨h, _⟩
      exact Or.inl h
    · rcases (metadataWrites_some_mem p v _ _ mw hmw).mp hmd with
        h | h | h | h | h | h
      · exact Or.inr (Or.inl h.1)
      · exact Or.inr (Or.inr (Or.inl h.1))
      · exact Or.inr (Or.inr (Or.inr (Or.inl h.1)))
      · exact Or.inr (Or.inr (Or.inr (Or.inr (Or.inl h.1))))
      · rcases h with ⟨pre, ls, h1, h2, kv, hkv, h3, _⟩
        exact Or.inr (Or.inr (Or.inr (Or.inr (Or.inr (Or.inl
          ⟨pre, ls, h1, h2, kv, hkv, h3⟩)))))
      · rcases h with ⟨pre, ls, h1, h2, kv, hkv, h3, _⟩
        exact Or.inr (Or.inr (Or.inr (Or.inr (Or.inr (Or.inr (Or.inl
          ⟨pre, ls, h1, h2, kv, hkv, h3⟩))))))
    · cases hspec : pod.spec with
      | none => rw [hspec] at hsp; exact absurd hsp (List.not_mem_nil _)
      | some pod_spec =>
        rw [hspec] at hsp
        rw [List.mem_append] at hsp
        rcases hsp with hnode | hcont
        · rcases (optWrite_mem p v _ _).mp hnode with ⟨h, _⟩
          exact Or.inr (Or.inr (Or.inr (Or.inr (Or.inr (Or.inr (Or.inr (Or.inl h)))))))
        · cases hfind : pod_spec.containers.find?
              (fun c2 => decide (c2.name = file_info.container_name)) with
          | none => rw [hfind] at hcont; exact absurd hcont (List.not_mem_nil _)
          | some container =>
            rw [hfind] at hcont
            rcases (optWrite_mem p v _ _).mp hcont with ⟨h, _⟩
            exact Or.inr (Or.inr (Or.inr (Or.inr (Or.inr (Or.inr (Or.inr (Or.inr
              (Or.inl ⟨h, pod_spec, container, rfl, hfind⟩))))))))
    · cases hstat : pod.status with
      | none => rw [hstat] at hst; exact absurd hst (List.not_mem_nil _)
      | some pod_status =>
        rw [hstat] at hst
        rw [List.mem_append] at hst
        rcases hst with hips | hcs
        · rcases (statusWrites_mem p v _ _).mp hips with h | h
          · exact Or.inr (Or.inr (Or.inr (Or.inr (Or.inr (Or.inr (Or.inr (Or.inr
              (Or.inr (Or.inl h.1)))))))))
          · exact Or.inr (Or.inr (Or.inr (Or.inr (Or.inr (Or.inr (Or.inr (Or.inr
              (Or.inr (Or.inr (Or.inl h.1))))))))))
        · cases hcss : pod_status.container_statuses with
          | none =>
            rw [hcss] at hcs
            dsimp only at hcs
            exact absurd hcs (List.not_mem_nil _)
          | some css =>
            rw [hcss] at hcs
            dsimp only at hcs
            cases hfind : css.find?
                (fun c2 => decide (c2.name = file_info.container_name)) with
            | none =>
              rw [hfind] at hcs
              dsimp only at hcs
              exact absurd hcs (List.not_mem_nil _)
            | some container_status =>
              rw [hfind] at hcs
              dsimp only at hcs
              rcases (optWrite_mem p v _ _).mp hcs with ⟨h, _⟩
              exact Or.inr (Or.inr (Or.inr (Or.inr (Or.inr (Or.inr (Or.inr (Or.inr
                (Or.inr (Or.inr (Or.inr ⟨h, pod_status, css, container_status,
                  rfl, hcss, hfind⟩))))))))))

/-- Each disjunct of `podWrites_mem` lands inside `allowedPaths`. -/
theorem mem_allowedPaths (fields_spec : FieldsSpec) (file_info : LogFileInfo) (pod : Pod)
    (p : FieldPath)
    (h : fields_spec.container_name = some p ∨ fields_spec.pod_name = some p ∨
      fields_spec.pod_namespace = some p ∨ fields_spec.pod_uid = some p ∨
      fields_spec.pod_owner = some p ∨
      (∃ pre ls, fields_spec.pod_labels = some pre ∧ pod.metadata.labels = some ls ∧
        ∃ kv ∈ ls, p = pre ++ [kv.1]) ∨
      (∃ pre ls, fields_spec.pod_annotations = some pre ∧
        pod.metadata.annotations = some ls ∧ ∃ kv ∈ ls, p = pre ++ [kv.1]) ∨
      fields_spec.pod_node_name = some p ∨
      (fields_spec.container_image = some p ∧ ∃ sp c, pod.spec = some sp ∧
        sp.containers.find? (fun c2 => decide (c2.name = file_info.container_name)) =
          some c) ∨
      fields_spec.pod_ip = some p ∨ fields_spec.pod_ips = some p ∨
      (fields_spec.container_id = some p ∧ ∃ st css cs, pod.status = some st ∧
        st.container_statuses = some css ∧
        css.find? (fun c2 => decide (c2.name = file_info.container_name)) = some cs)) :
    p ∈ allowedPaths fields_spec pod := by
  unfold allowedPaths
  simp only [List.append_assoc, List.mem_append]
  rcases h with h | h | h | h | h | h | h | h | h | h | h | h
  · exact Or.inl (by simp [slotPath, h])
  · exact Or.inr (Or.inl (by simp [slotPath, h]))
  · exact Or.inr (Or.inr (Or.inl (by simp [slotPath, h])))
  · exact Or.inr (Or.inr (Or.inr (Or.inl (by simp [slotPath, h]))))
  · exact Or.inr (Or.inr (Or.inr (Or.inr (Or.inl (by simp [slotPath, h])))))
  · refine Or.inr (Or.inr (Or.inr (Or.inr (Or.inr (Or.inl ?_)))))
    rcases h with ⟨pre, ls, h1, h2, kv, hkv, h3⟩
    simp only [mapChildPaths, h1, h2]
    exact List.mem_map.mpr ⟨kv, hkv, h3.symm⟩
  · refine Or.inr (Or.inr (Or.inr (Or.inr (Or.inr (Or.inr (Or.inl ?_))))))
    rcases h with ⟨pre, ls, h1, h2, kv, hkv, h3⟩
    simp only [mapChildPaths, h1, h2]
    exact List.mem_map.mpr ⟨kv, hkv, h3.symm⟩
  · exact Or.inr (Or.inr (Or.inr (Or.inr (Or.inr (Or.inr (Or.inr (Or.inl
      (by simp [slotPath, h]))))))))
  · exact Or.inr (Or.inr (Or.inr (Or.inr (Or.inr (Or.inr (Or.inr (Or.inr (Or.inl
      (by simp [slotPath, h.1])))))))))
  · exact Or.inr (Or.inr (Or.inr (Or.inr (Or.inr (Or.inr (Or.inr (Or.inr (Or.inr
      (Or.inl (by simp [slotPath, h]))))))))))
  · exact Or.inr (Or.inr (Or.inr (Or.inr (Or.inr (Or.inr (Or.inr (Or.inr (Or.inr
      (Or.inr (Or.inl (by simp [slotPath, h])))))))))))
  · exact Or.inr (Or.inr (Or.inr (Or.inr (Or.inr (Or.inr (Or.inr (Or.inr (Or.inr
      (Or.inr (Or.inr (by simp [slotPath, h.1])))))))))))

/-- Claim C8: with the default `FieldsSpec`, annotating an empty event for
file path `/var/log/pods/ns0_pod0_uid0/app/1.log` against a store holding
the spec's example pod produces exactly the nine expected `kubernetes.*`
fields and no others. -/
theorem annotate_end_to_end :
    PodMetadataAnnotator.annotate ⟨store8, FieldsSpec.default⟩ ⟨[]⟩
      "/var/log/pods/ns0_pod0_uid0/app/1.log" =
      some (some ⟨"ns0", "pod0", "uid0", "app"⟩, expected8) := by decide

/-- Claim C9: `annotate` is idempotent on the record — re-annotating the
already-annotated event with the same store, spec and file leaves the
record (and the returned path info) exactly as after the first call. -/
theorem annotate_idempotent (a : PodMetadataAnnotator) (event : LogEvent) (file : String)
    (r : Option LogFileInfo) (event2 : LogEvent)
    (h : a.annotate event file = some (r, event2)) :
    a.annotate event2 file = some (r, event2) := by
  cases hp : parse_log_file_path file with
  | none =>
    rw [annotate_parse_fail a event file hp] at h
    simp only [Option.some.injEq, Prod.mk.injEq] at h
    obtain ⟨hr, he⟩ := h
    rw [← hr, ← he]
    exact annotate_parse_fail a event file hp
  | some file_info =>
    cases hs : a.pods_state_reader file_info.pod_name file_info.pod_namespace with
    | none =>
      rw [annotate_store_miss a event file file_info hp hs] at h
      simp only [Option.some.injEq, Prod.mk.injEq] at h
      obtain ⟨hr, he⟩ := h
      rw [← hr, ← he]
      exact annotate_store_miss a event file file_info hp hs
    | some pod =>
      have h1 := annotate_success a event file file_info pod hp hs
      cases hw : podWrites a.fields_spec file_info pod with
      | none =>
        rw [hw] at h1
        rw [h1] at h
        exact absurd h (by simp)
      | some w =>
        rw [hw] at h1
        simp only [Option.map_some'] at h1
        rw [h1] at h
        simp only [Option.some.injEq, Prod.mk.injEq] at h
        obtain ⟨hr, he⟩ := h
        subst hr
        have h2 := annotate_success a event2 file file_info pod hp hs
        rw [hw] at h2
        simp only [Option.map_some'] at h2
        rw [h2, ← he, applyInserts_idem]

/-- Witness for C9: re-annotating the end-to-end scenario's output record
reproduces it unchanged. -/
theorem annotate_idempotent_witness :
    PodMetadataAnnotator.annotate ⟨store8, FieldsSpec.default⟩ expected8
      "/var/log/pods/ns0_pod0_uid0/app/1.log" =
      some (some ⟨"ns0", "pod0", "uid0", "app"⟩, expected8) :=
  annotate_idempotent ⟨store8, FieldsSpec.default⟩ ⟨[]⟩
    "/var/log/pods/ns0_pod0_uid0/app/1.log"
    (some ⟨"ns0", "pod0", "uid0", "app"⟩) expected8 (by decide)

/-- Claim C10: on a resolved pod, `annotate` mutates only the enabled slot
paths plus the label / annotation children keyed by the source maps; the
record's value at every other path is untouched. -/
theorem annotate_frame (a : PodMetadataAnnotator) (event : LogEvent) (file : String)
    (file_info : LogFileInfo) (pod : Pod) (event2 : LogEvent) (q : FieldPath)
    (hp : parse_log_file_path file = some file_info)
    (hs : a.pods_state_reader file_info.pod_name file_info.pod_namespace = some pod)
    (h : a.annotate event file = some (some file_info, event2))
    (hq : q ∉ allowedPaths a.fields_spec pod) :
    event2.get q = event.get q := by
  have h1 := annotate_success a event file file_info pod hp hs
  cases hw : podWrites a.fields_spec file_info pod with
  | none =>
    rw [hw] at h1
    rw [h1] at h
    exact absurd h (by simp)
  | some w =>
    rw [hw] at h1
    simp only [Option.map_some'] at h1
    rw [h1] at h
    simp only [Option.some.injEq, Prod.mk.injEq] at h
    obtain ⟨_, he⟩ := h
    rw [← he]
    refine applyInserts_get_frame w event q ?_
    intro pair hpair hpq
    apply hq
    have hme := podWrites_mem a.fields_spec file_info pod w pair.1 pair.2 hw
      (by simpa using hpair)
    rw [hpq] at hme
    exact mem_allowedPaths a.fields_spec file_info pod q hme

/-- Witness for C10: in the end-to-end scenario a pre-existing field at the
unconfigured path `other` survives annotation with its original value. -/
theorem annotate_frame_witness :
    (PodMetadataAnnotator.annotate ⟨store8, FieldsSpec.default⟩
        ⟨[([ "other" ], Value.str "keep")]⟩
        "/var/log/pods/ns0_pod0_uid0/app/1.log").map
        (fun rp => rp.2.get ["other"]) =
      some (some (Value.str "keep")) := by
  have h8 : PodMetadataAnnotator.annotate ⟨store8, FieldsSpec.default⟩
      ⟨[([ "other" ], Value.str "keep")]⟩
      "/var/log/pods/ns0_pod0_uid0/app/1.log" =
      some (some ⟨"ns0", "pod0", "uid0", "app"⟩,
        ⟨([ "other" ], Value.str "keep") :: expected8.entries⟩) := by decide
  rw [h8, Option.map_some']
  rw [annotate_frame ⟨store8, FieldsSpec.default⟩ ⟨[([ "other" ], Value.str "keep")]⟩
    "/var/log/pods/ns0_pod0_uid0/app/1.log" ⟨"ns0", "pod0", "uid0", "app"⟩ pod8
    ⟨([ "other" ], Value.str "keep") :: expected8.entries⟩ ["other"]
    (by decide) (by decide) h8 (by decide)]
  decide

/-- Claim C1 (amended): resolution behaviour of `annotate`.  An unparseable
path or a store miss returns no match and leaves the record untouched; a
successful return presupposes both a parse hit and a store hit; and on a
parse hit plus store hit the call returns the parsed info — provided it
does not panic (the `owner_references[0]` defect, claim C3). -/
theorem annotate_resolution (a : PodMetadataAnnotator) (event : LogEvent) (file : String) :
    (parse_log_file_path file = none → a.annotate event file = some (none, event)) ∧
    (∀ fi, parse_log_file_path file = some fi →
      a.pods_state_reader fi.pod_name fi.pod_namespace = none →
      a.annotate event file = some (none, event)) ∧
    (∀ fi event2, a.annotate event file = some (some fi, event2) →
      parse_log_file_path file = some fi ∧
      ∃ pod, a.pods_state_reader fi.pod_name fi.pod_namespace = some pod) ∧
    (∀ fi pod, parse_log_file_path file = some fi →
      a.pods_state_reader fi.pod_name fi.pod_namespace = some pod →
      a.annotate event file ≠ none →
      ∃ event2, a.annotate event file = some (some fi, event2)) := by
  refine ⟨annotate_parse_fail a event file,
    fun fi hp hs => annotate_store_miss a event file fi hp hs, ?_, ?_⟩
  · intro fi event2 h
    cases hp : parse_log_file_path file with
    | none =>
      rw [annotate_parse_fail a event file hp] at h
      simp at h
    | some fi2 =>
      cases hs : a.pods_state_reader fi2.pod_name fi2.pod_namespace with
      | none =>
        rw [annotate_store_miss a event file fi2 hp hs] at h
        simp at h
      | some pod =>
        have h1 := annotate_success a event file fi2 pod hp hs
        cases hw : podWrites a.fields_spec fi2 pod with
        | none =>
          rw [hw] at h1
          rw [h1] at h
          exact absurd h (by simp)
        | some w =>
          rw [hw] at h1
          simp only [Option.map_some'] at h1
          rw [h1] at h
          simp only [Option.some.injEq, Prod.mk.injEq] at h
          obtain ⟨hfi, _⟩ := h
          subst hfi
          exact ⟨rfl, pod, hs⟩
  · intro fi pod hp hs hne
    have h1 := annotate_success a event file fi pod hp hs
    cases hw : podWrites a.fields_spec fi pod with
    | none =>
      rw [hw] at h1
      exact absurd h1 hne
    | some w =>
      rw [hw] at h1
      simp only [Option.map_some'] at h1
      exact ⟨_, h1⟩

/-- Witness for C1: an unparseable path yields no match and the empty record
stays empty. -/
theorem annotate_resolution_witness :
    PodMetadataAnnotator.annotate ⟨store8, FieldsSpec.default⟩ ⟨[]⟩
      "not-a-kubernetes-path" = some (none, ⟨[]⟩) :=
  (annotate_resolution ⟨store8, FieldsSpec.default⟩ ⟨[]⟩
    "not-a-kubernetes-path").1 (by decide)

/-- Counterexample to C1 as stated: the path parses and the pod is found in
the store, yet `annotate` returns neither `Some(PathInfo)` nor `None` — it
panics (the pod's owner-reference list is present but empty and `pod_owner`
is enabled). -/
theorem annotate_resolution_counterexample :
    parse_log_file_path "/var/log/pods/nsA_podA_uidA/c0/0.log" =
      some ⟨"nsA", "podA", "uidA", "c0"⟩ ∧
    storeBad "podA" "nsA" = some podBad ∧
    PodMetadataAnnotator.annotate ⟨storeBad, FieldsSpec.default⟩ ⟨[]⟩
      "/var/log/pods/nsA_podA_uidA/c0/0.log" = none := by decide

/-- Claim C3 (code bug): with the default spec (`pod_owner` enabled) and an
owner-reference list that is present but empty, `annotate_from_metadata`
reaches the unchecked index `owner_references[0]` and panics instead of
totalling: the model evaluates to the panic value `none`. -/
theorem annotate_from_metadata_empty_owner_panics :
    FieldsSpec.default.pod_owner = some ["kubernetes", "pod_owner"] ∧
    mBad.owner_references = some [] ∧
    annotate_from_metadata ⟨[]⟩ FieldsSpec.default mBad = none := by decide

/-- A bound value is what `get` reads. -/
theorem LogEvent.bound_get (log : LogEvent) (p : FieldPath) (v : Value)
    (h : log.Bound p v) : log.get p = some v := by
  obtain ⟨hk, hv⟩ := h
  unfold LogEvent.hasKey at hk
  unfold LogEvent.get
  rcases List.any_eq_true.mp hk with ⟨kv, hkv, hp⟩
  simp only [decide_eq_true_eq] at hp
  cases hf : log.entries.find? fun kv2 => decide (kv2.1 = p) with
  | none =>
    rw [List.find?_eq_none] at hf
    exact absurd (by simp [hp]) (hf kv hkv)
  | some kv2 =>
    have h1 : kv2.1 = p := by
      have := List.find?_some hf
      simpa using this
    have h2 : kv2 ∈ log.entries := List.mem_of_find?_eq_some hf
    simp [hv kv2 h2 h1]

/-- Inserting a pair that agrees with the bound value on a key collision
preserves the bound. -/
theorem LogEvent.bound_insert_compat (log : LogEvent) (p q : FieldPath) (v w : Value)
    (hcomp : q = p → w = v) (h : log.Bound p v) : (log.insert q w).Bound p v := by
  by_cases hqp : q = p
  · subst hqp
    rw [hcomp rfl]
    exact log.bound_insert_self q v
  · exact log.bound_insert_ne p q v w hqp h

theorem applyInserts_bound_compat (ps : List (FieldPath × Value)) (log : LogEvent)
    (p : FieldPath) (v : Value)
    (hcomp : ∀ pair ∈ ps, pair.1 = p → pair.2 = v)
    (hb : log.Bound p v) : (applyInserts ps log).Bound p v := by
  induction ps generalizing log with
  | nil => exact hb
  | cons r ps ih =>
    rw [applyInserts_cons]
    exact ih _ (fun pair hp => hcomp pair (List.mem_cons_of_mem _ hp))
      (log.bound_insert_compat p r.1 v r.2 (hcomp r (List.mem_cons_self _ _)) hb)

/-- If a chain contains a write of `v` at `p` and every write at `p` in the
chain writes `v`, the final record reads `v` at `p`. -/
theorem applyInserts_get_of_mem_compat (ps : List (FieldPath × Value)) (log : LogEvent)
    (p : FieldPath) (v : Value) (hmem : (p, v) ∈ ps)
    (hcomp : ∀ pair ∈ ps, pair.1 = p → pair.2 = v) :
    (applyInserts ps log).get p = some v := by
  rcases List.append_of_mem hmem with ⟨s, t, rfl⟩
  rw [show s ++ (p, v) :: t = (s ++ [(p, v)]) ++ t by simp, applyInserts_append,
    applyInserts_append, applyInserts_cons, applyInserts_nil]
  refine LogEvent.bound_get _ p v (applyInserts_bound_compat t _ p v ?_
    ((applyInserts s log).bound_insert_self p v))
  intro pair hp
  exact hcomp pair (by simp [hp])

/-- A successful metadata write chain is some scalar block followed by the
label / annotation writes. -/
theorem metadataWrites_decomp (fields_spec : FieldsSpec) (metadata : ObjectMeta)
    (mw : List (FieldPath × Value)) (hmw : metadataWrites fields_spec metadata = some mw) :
    ∃ base2, mw = base2 ++ mapsWrites fields_spec metadata := by
  unfold metadataWrites at hmw
  cases ho : fields_spec.pod_owner with
  | none =>
    rw [ho] at hmw
    simp only [Option.some.injEq] at hmw
    exact ⟨_, hmw.symm⟩
  | some key =>
    rw [ho] at hmw
    cases hr : metadata.owner_references with
    | none =>
      rw [hr] at hmw
      simp only [Option.some.injEq] at hmw
      exact ⟨_, hmw.symm⟩
    | some refs =>
      rw [hr] at hmw
      cases refs with
      | nil => simp at hmw
      | cons r rest =>
        simp only [List.head?_cons, Option.some.injEq] at hmw
        exact ⟨_, hmw.symm⟩

/-- Claim C4: with `pod_owner` enabled and a present, non-empty
owner-reference list, the object-metadata projector writes exactly
`"<kind>/<name>"` of the first entry to the `pod_owner` path, and the result
does not depend on the later entries.  (The clobber hypotheses keep a label
or annotation child from being configured onto the very same path.) -/
theorem pod_owner_first_reference (log : LogEvent) (fields_spec : FieldsSpec)
    (metadata : ObjectMeta) (p : FieldPath) (r : OwnerReference)
    (rest : List OwnerReference)
    (hk : fields_spec.pod_owner = some p)
    (hr : metadata.owner_references = some (r :: rest))
    (hlab : ∀ pre ls kv, fields_spec.pod_labels = some pre → metadata.labels = some ls →
      kv ∈ ls → pre ++ [kv.1] ≠ p)
    (hann : ∀ pre ls kv, fields_spec.pod_annotations = some pre →
      metadata.annotations = some ls → kv ∈ ls → pre ++ [kv.1] ≠ p) :
    (∃ log2, annotate_from_metadata log fields_spec metadata = some log2 ∧
      log2.get p = some (Value.str (r.kind ++ "/" ++ r.name))) ∧
    annotate_from_metadata log fields_spec metadata =
      annotate_from_metadata log fields_spec
        { metadata with owner_references := some [r] } := by
  have hmaps : ∀ pair ∈ mapsWrites fields_spec metadata, pair.1 ≠ p := by
    intro pair hp
    rcases (mapsWrites_mem pair.1 pair.2 _ _).mp (by simpa using hp) with
      ⟨pre, ls, h1, h2, kv, hkv, h3, _⟩ | ⟨pre, ls, h1, h2, kv, hkv, h3, _⟩
    · rw [h3]
      exact hlab pre ls kv h1 h2 hkv
    · rw [h3]
      exact hann pre ls kv h1 h2 hkv
  have hmw : metadataWrites fields_spec metadata =
      some ((optWrite fields_spec.pod_name metadata.name
        ++ optWrite fields_spec.pod_namespace metadata.nspace
        ++ optWrite fields_spec.pod_uid metadata.uid)
        ++ [(p, Value.str (r.kind ++ "/" ++ r.name))]
        ++ mapsWrites fields_spec metadata) := by
    simp [metadataWrites, hk, hr]
  constructor
  · refine ⟨_, by rw [annotate_from_metadata_eq, hmw, Option.map_some'], ?_⟩
    rw [show (optWrite fields_spec.pod_name metadata.name
        ++ optWrite fields_spec.pod_namespace metadata.nspace
        ++ optWrite fields_spec.pod_uid metadata.uid)
        ++ [(p, Value.str (r.kind ++ "/" ++ r.name))]
        ++ mapsWrites fields_spec metadata =
      (optWrite fields_spec.pod_name metadata.name
        ++ optWrite fields_spec.pod_namespace metadata.nspace
        ++ optWrite fields_spec.pod_uid metadata.uid)
        ++ (p, Value.str (r.kind ++ "/" ++ r.name))
        :: mapsWrites fields_spec metadata by simp]
    exact applyInserts_get_last _ _ log p _ hmaps
  · rw [annotate_from_metadata_eq, annotate_from_metadata_eq]
    have : metadataWrites fields_spec metadata =
        metadataWrites fields_spec { metadata with owner_references := some [r] } := by
      rw [hmw]
      simp [metadataWrites, mapsWrites, hk]
    rw [this]

/-- Witness for C4: two owner references; only `ReplicaSet/rs1`, built from
the first, is written, and the second reference is irrelevant. -/
theorem pod_owner_first_reference_witness :
    (∃ log2, annotate_from_metadata ⟨[]⟩ FieldsSpec.default
        { name := none, nspace := none, uid := none
          owner_references := some [⟨"ReplicaSet", "rs1"⟩, ⟨"Deployment", "d1"⟩]
          labels := none, annotations := none } = some log2 ∧
      log2.get ["kubernetes", "pod_owner"] = some (Value.str ("ReplicaSet" ++ "/" ++ "rs1"))) ∧
    annotate_from_metadata ⟨[]⟩ FieldsSpec.default
        { name := none, nspace := none, uid := none
          owner_references := some [⟨"ReplicaSet", "rs1"⟩, ⟨"Deployment", "d1"⟩]
          labels := none, annotations := none } =
      annotate_from_metadata ⟨[]⟩ FieldsSpec.default
        { name := none, nspace := none, uid := none
          owner_references := some [⟨"ReplicaSet", "rs1"⟩]
          labels := none, annotations := none } :=
  pod_owner_first_reference ⟨[]⟩ FieldsSpec.default _ ["kubernetes", "pod_owner"]
    ⟨"ReplicaSet", "rs1"⟩ [⟨"Deployment", "d1"⟩] (by decide) rfl
    (fun pre ls kv _ hls _ => Option.noConfusion hls)
    (fun pre ls kv _ hls _ => Option.noConfusion hls)

/-- Claim C5: with both status slots enabled (at distinct paths), an absent
`status.pod_ip` leaves the `pod_ip` path untouched, while a present
`status.pod_ips` list is written as the ordered list of present addresses —
an empty list is still written when every entry lacks an address. -/
theorem pod_status_absence_asymmetry (log : LogEvent) (fields_spec : FieldsSpec)
    (pod_status : PodStatus) (p1 p2 : FieldPath)
    (h1 : fields_spec.pod_ip = some p1) (h2 : fields_spec.pod_ips = some p2)
    (hne : p1 ≠ p2) :
    (pod_status.pod_ip = none →
      (annotate_from_pod_status log fields_spec pod_status).get p1 = log.get p1) ∧
    (∀ ips, pod_status.pod_ips = some ips →
      (annotate_from_pod_status log fields_spec pod_status).get p2 =
        some (Value.list (ips.filterMap PodIP.ip))) ∧
    (∀ ips, pod_status.pod_ips = some ips → (∀ e ∈ ips, e.ip = none) →
      (annotate_from_pod_status log fields_spec pod_status).get p2 =
        some (Value.list [])) := by
  have hmain : ∀ ips, pod_status.pod_ips = some ips →
      (annotate_from_pod_status log fields_spec pod_status).get p2 =
        some (Value.list (ips.filterMap PodIP.ip)) := by
    intro ips hips
    rw [annotate_from_pod_status_eq]
    refine applyInserts_get_of_mem_compat _ _ _ _ ?_ ?_
    · refine List.mem_append_right _ ?_
      simp [h2, hips]
    · intro pair hp hkey
      rcases (statusWrites_mem pair.1 pair.2 _ _).mp (by simpa using hp) with
        ⟨hq, v3, _, _⟩ | ⟨hq, ips3, hips3, hval⟩
      · rw [hkey] at hq
        rw [h1] at hq
        simp only [Option.some.injEq] at hq
        exact absurd hq hne
      · rw [hips] at hips3
        simp only [Option.some.injEq] at hips3
        rw [hval, hips3]
  refine ⟨?_, hmain, ?_⟩
  · intro hip
    rw [annotate_from_pod_status_eq]
    refine applyInserts_get_frame _ _ _ ?_
    intro pair hp
    rcases (statusWrites_mem pair.1 pair.2 _ _).mp (by simpa using hp) with
      ⟨_, v3, hv3, _⟩ | ⟨hq, _, _, _⟩
    · rw [hip] at hv3
      exact absurd hv3 (by simp)
    · rw [hq] at h2
      intro hcontra
      rw [hcontra] at h2
      simp only [Option.some.injEq] at h2
      exact hne h2
  · intro ips hips hnoip
    rw [hmain ips hips]
    have : ips.filterMap PodIP.ip = [] := by
      rw [List.filterMap_eq_nil_iff]
      exact hnoip
    rw [this]

/-- Witness for C5: absent `pod_ip` stays absent on an empty record, and a
`pod_ips` list whose entries all lack an address is written as `[]`. -/
theorem pod_status_absence_asymmetry_witness :
    (annotate_from_pod_status ⟨[]⟩ FieldsSpec.default
        { pod_ip := none, pod_ips := some [⟨none⟩, ⟨none⟩]
          container_statuses := none }).get
      ["kubernetes", "pod_ip"] = (⟨[]⟩ : LogEvent).get ["kubernetes", "pod_ip"] ∧
    (annotate_from_pod_status ⟨[]⟩ FieldsSpec.default
        { pod_ip := none, pod_ips := some [⟨none⟩, ⟨none⟩]
          container_statuses := none }).get
      ["kubernetes", "pod_ips"] = some (Value.list []) := by
  have h := pod_status_absence_asymmetry ⟨[]⟩ FieldsSpec.default
    { pod_ip := none, pod_ips := some [⟨none⟩, ⟨none⟩], container_statuses := none }
    ["kubernetes", "pod_ip"] ["kubernetes", "pod_ips"]
    (by decide) (by decide) (by decide)
  exact ⟨h.1 rfl, h.2.2 [⟨none⟩, ⟨none⟩] rfl (by decide)⟩

/-- Claim C6: each label / annotation entry is written as a child of the
configured path keyed by the raw key as one opaque segment (a `.` inside a
key does not nest), so reading back the literal key yields the original
value whenever the projector returns.  The functionality hypothesis mirrors
the source's BTreeMap (no duplicate keys); the annotation-collision
hypothesis keeps a later annotation write off the label child path. -/
theorem label_keys_single_segment (log : LogEvent) (fields_spec : FieldsSpec)
    (metadata : ObjectMeta) :
    (∀ pre ls k v log2, fields_spec.pod_labels = some pre → metadata.labels = some ls →
      (k, v) ∈ ls → (∀ kv ∈ ls, kv.1 = k → kv.2 = v) →
      (∀ pre2 ans kv, fields_spec.pod_annotations = some pre2 →
        metadata.annotations = some ans → kv ∈ ans → pre2 ++ [kv.1] ≠ pre ++ [k]) →
      annotate_from_metadata log fields_spec metadata = some log2 →
      log2.get (pre ++ [k]) = some (Value.str v)) ∧
    (∀ pre ans k v log2, fields_spec.pod_annotations = some pre →
      metadata.annotations = some ans → (k, v) ∈ ans →
      (∀ kv ∈ ans, kv.1 = k → kv.2 = v) →
      annotate_from_metadata log fields_spec metadata = some log2 →
      log2.get (pre ++ [k]) = some (Value.str v)) := by
  constructor
  · intro pre ls k v log2 hpre hls hmem hfun hann2 hmeta
    rw [annotate_from_metadata_eq] at hmeta
    cases hmw : metadataWrites fields_spec metadata with
    | none => rw [hmw] at hmeta; exact absurd hmeta (by simp)
    | some mw =>
      rw [hmw, Option.map_some'] at hmeta
      simp only [Option.some.injEq] at hmeta
      subst hmeta
      rcases metadataWrites_decomp fields_spec metadata mw hmw with ⟨base2, rfl⟩
      rw [applyInserts_append]
      refine applyInserts_get_of_mem_compat _ _ _ _ ?_ ?_
      · rw [mapsWrites_mem]
        exact Or.inl ⟨pre, ls, hpre, hls, (k, v), hmem, rfl, rfl⟩
      · intro pair hp hkey
        rcases (mapsWrites_mem pair.1 pair.2 _ _).mp (by simpa using hp) with
          ⟨pre0, ls0, h1, h2, kv, hkv, h3, h4⟩ | ⟨pre0, ls0, h1, h2, kv, hkv, h3, h4⟩
        · rw [hpre] at h1
          rw [hls] at h2
          simp only [Option.some.injEq] at h1 h2
          subst h1
          subst h2
          rw [h3] at hkey
          have hk1 : kv.1 = k := by
            have := List.append_cancel_left hkey
            simpa using this
          rw [h4, hfun kv hkv hk1]
        · exfalso
          rw [h3] at hkey
          exact hann2 pre0 ls0 kv h1 h2 hkv hkey
  · intro pre ans k v log2 hpre hans hmem hfun hmeta
    rw [annotate_from_metadata_eq] at hmeta
    cases hmw : metadataWrites fields_spec metadata with
    | none => rw [hmw] at hmeta; exact absurd hmeta (by simp)
    | some mw =>
      rw [hmw, Option.map_some'] at hmeta
      simp only [Option.some.injEq] at hmeta
      subst hmeta
      rcases metadataWrites_decomp fields_spec metadata mw hmw with ⟨base2, rfl⟩
      have hms : mapsWrites fields_spec metadata =
          (match metadata.labels, fields_spec.pod_labels with
           | some ls2, some pre2 => mapWrites pre2 ls2
           | _, _ => []) ++ mapWrites pre ans := by
        unfold mapsWrites
        rw [hpre, hans]
      rw [hms, ← List.append_assoc, applyInserts_append]
      refine applyInserts_get_of_mem_compat _ _ _ _ ?_ ?_
      · rw [mapWrites_mem]
        exact ⟨(k, v), hmem, rfl, rfl⟩
      · intro pair hp hkey
        rcases (mapWrites_mem pair.1 pair.2 _ _).mp (by simpa using hp) with
          ⟨kv, hkv, h3, h4⟩
        rw [h3] at hkey
        have hk1 : kv.1 = k := by
          have := List.append_cancel_left hkey
          simpa using this
        rw [h4, hfun kv hkv hk1]

/-- Witness for C6: the label key `app.kubernetes.io/name` round-trips as a
single opaque segment under `kubernetes.pod_labels`. -/
theorem label_keys_single_segment_witness :
    annotate_from_metadata ⟨[]⟩ FieldsSpec.default
        { name := none, nspace := none, uid := none, owner_references := none
          labels := some [("app.kubernetes.io/name", "nginx")], annotations := none } =
      some ⟨[(["kubernetes", "pod_labels", "app.kubernetes.io/name"],
        Value.str "nginx")]⟩ ∧
    (⟨[(["kubernetes", "pod_labels", "app.kubernetes.io/name"],
        Value.str "nginx")]⟩ : LogEvent).get
      (["kubernetes", "pod_labels"] ++ ["app.kubernetes.io/name"]) =
      some (Value.str "nginx") := by
  refine ⟨by decide, ?_⟩
  exact (label_keys_single_segment ⟨[]⟩ FieldsSpec.default
      { name := none, nspace := none, uid := none, owner_references := none
        labels := some [("app.kubernetes.io/name", "nginx")],
        annotations := none }).1
    ["kubernetes", "pod_labels"] [("app.kubernetes.io/name", "nginx")]
    "app.kubernetes.io/name" "nginx"
    ⟨[(["kubernetes", "pod_labels", "app.kubernetes.io/name"], Value.str "nginx")]⟩
    rfl rfl (by decide) (by decide)
    (fun pre2 ans kv _ hans _ => Option.noConfusion hans) (by decide)

/-- A successful `annotate` is the application of its write chain. -/
theorem annotate_writes (a : PodMetadataAnnotator) (event : LogEvent) (file : String)
    (file_info : LogFileInfo) (pod : Pod) (event2 : LogEvent)
    (hp : parse_log_file_path file = some file_info)
    (hs : a.pods_state_reader file_info.pod_name file_info.pod_namespace = some pod)
    (h : a.annotate event file = some (some file_info, event2)) :
    ∃ w, podWrites a.fields_spec file_info pod = some w ∧
      event2 = applyInserts w event := by
  have h1 := annotate_success a event file file_info pod hp hs
  cases hw : podWrites a.fields_spec file_info pod with
  | none =>
    rw [hw] at h1
    rw [h1] at h
    exact absurd h (by simp)
  | some w =>
    rw [hw] at h1
    simp only [Option.map_some'] at h1
    rw [h1] at h
    simp only [Option.some.injEq, Prod.mk.injEq] at h
    exact ⟨w, rfl, h.2.symm⟩

/-- The write chain of `annotate`, spelled out, once the metadata projector
is known not to panic. -/
theorem podWrites_some (fields_spec : FieldsSpec) (file_info : LogFileInfo) (pod : Pod)
    (mw : List (FieldPath × Value))
    (hmw : metadataWrites fields_spec pod.metadata = some mw) :
    podWrites fields_spec file_info pod =
      some (fileInfoWrites fields_spec file_info ++ mw ++
        (match pod.spec with
         | none => []
         | some pod_spec =>
           specWrites fields_spec pod_spec ++
           (match pod_spec.containers.find?
               (fun c => decide (c.name = file_info.container_name)) with
            | some container => containerWrites fields_spec container
            | none => [])) ++
        (match pod.status with
         | none => []
         | some pod_status =>
           statusWrites fields_spec pod_status ++
           (match pod_status.container_statuses with
            | none => []
            | some container_statuses =>
              match container_statuses.find?
                  (fun c => decide (c.name = file_info.container_name)) with
              | some container_status => containerStatusWrites fields_spec container_status
              | none => []))) := by
  unfold podWrites
  rw [hmw]

/-- Any pair in the status section of the write chain targets one of the
`pod_ip`, `pod_ips` or `container_id` slots. -/
theorem statusChunk_mem (fields_spec : FieldsSpec) (file_info : LogFileInfo) (pod : Pod)
    (pair : FieldPath × Value)
    (h : pair ∈ (match pod.status with
      | none => ([] : List (FieldPath × Value))
      | some pod_status =>
        statusWrites fields_spec pod_status ++
        (match pod_status.container_statuses with
         | none => []
         | some container_statuses =>
           match container_statuses.find?
               (fun c : ContainerStatus => decide (c.name = file_info.container_name)) with
           | some container_status => containerStatusWrites fields_spec container_status
           | none => []))) :
    fields_spec.pod_ip = some pair.1 ∨ fields_spec.pod_ips = some pair.1 ∨
      fields_spec.container_id = some pair.1 := by
  cases hstat : pod.status with
  | none =>
    rw [hstat] at h
    exact absurd h (List.not_mem_nil pair)
  | some pod_status =>
    rw [hstat] at h
    dsimp only at h
    rcases List.mem_append.mp h with h1 | h2
    · rcases (statusWrites_mem pair.1 pair.2 _ _).mp (by simpa using h1) with
        ⟨hq, _⟩ | ⟨hq, _⟩
      · exact Or.inl hq
      · exact Or.inr (Or.inl hq)
    · cases hcss : pod_status.container_statuses with
      | none =>
        rw [hcss] at h2
        dsimp only at h2
        exact absurd h2 (List.not_mem_nil pair)
      | some css =>
        rw [hcss] at h2
        dsimp only at h2
        cases hfind : css.find? (fun c => decide (c.name = file_info.container_name)) with
        | none =>
          rw [hfind] at h2
          dsimp only at h2
          exact absurd h2 (List.not_mem_nil pair)
        | some container_status =>
          rw [hfind] at h2
          dsimp only at h2
          rcases (optWrite_mem pair.1 pair.2 _ _).mp (by simpa using h2) with ⟨hq, _⟩
          exact Or.inr (Or.inr hq)

/-- Claim C7: the container and container-status projectors run only for
the first entry whose name equals the path's container name exactly; with no
match the corresponding field stays exactly as in the incoming record.  (The
inequality/`allowedPaths` hypotheses keep another slot from being configured
onto the same output path.) -/
theorem container_matching (a : PodMetadataAnnotator) (event : LogEvent) (file : String)
    (file_info : LogFileInfo) (pod : Pod) (event2 : LogEvent)
    (hp : parse_log_file_path file = some file_info)
    (hs : a.pods_state_reader file_info.pod_name file_info.pod_namespace = some pod)
    (h : a.annotate event file = some (some file_info, event2)) :
    (∀ sp l1 c l2 p img, pod.spec = some sp → sp.containers = l1 ++ c :: l2 →
      (∀ c2 ∈ l1, c2.name ≠ file_info.container_name) →
      c.name = file_info.container_name →
      a.fields_spec.container_image = some p → c.image = some img →
      a.fields_spec.pod_ip ≠ some p → a.fields_spec.pod_ips ≠ some p →
      a.fields_spec.container_id ≠ some p →
      event2.get p = some (Value.str img)) ∧
    (∀ p, a.fields_spec.container_image = some p →
      (∀ sp, pod.spec = some sp →
        ∀ c2 ∈ sp.containers, c2.name ≠ file_info.container_name) →
      p ∉ allowedPaths { a.fields_spec with container_image := none } pod →
      event2.get p = event.get p) ∧
    (∀ st css l1 cs l2 p cid, pod.status = some st →
      st.container_statuses = some css → css = l1 ++ cs :: l2 →
      (∀ c2 ∈ l1, c2.name ≠ file_info.container_name) →
      cs.name = file_info.container_name →
      a.fields_spec.container_id = some p → cs.container_id = some cid →
      event2.get p = some (Value.str cid)) ∧
    (∀ p, a.fields_spec.container_id = some p →
      (∀ st css, pod.status = some st → st.container_statuses = some css →
        ∀ c2 ∈ css, c2.name ≠ file_info.container_name) →
      p ∉ allowedPaths { a.fields_spec with container_id := none } pod →
      event2.get p = event.get p) := by
  rcases annotate_writes a event file file_info pod event2 hp hs h with ⟨w, hw, rfl⟩
  refine ⟨?_, ?_, ?_, ?_⟩
  · intro sp l1 c l2 p img hspec hdec hl1 hcn himg hcimg hip hips hid
    have hfind : sp.containers.find?
        (fun c2 => decide (c2.name = file_info.container_name)) = some c := by
      rw [hdec]
      exact find?_first _ l1 l2 c (fun x hx => by simp [hl1 x hx]) (by simp [hcn])
    cases hmw : metadataWrites a.fields_spec pod.metadata with
    | none =>
      have : podWrites a.fields_spec file_info pod = none := by
        unfold podWrites
        rw [hmw]
      rw [this] at hw
      exact absurd hw (by simp)
    | some mw =>
      have hpw := podWrites_some a.fields_spec file_info pod mw hmw
      rw [hw] at hpw
      simp only [Option.some.injEq] at hpw
      subst hpw
      rw [hspec]
      dsimp only
      rw [hfind]
      dsimp only
      have hcw : containerWrites a.fields_spec c = [(p, Value.str img)] := by
        unfold containerWrites optWrite
        rw [himg, hcimg]
      rw [hcw]
      rw [show fileInfoWrites a.fields_spec file_info ++ mw ++
          (specWrites a.fields_spec sp ++ [(p, Value.str img)]) ++
          (match pod.status with
           | none => ([] : List (FieldPath × Value))
           | some pod_status =>
             statusWrites a.fields_spec pod_status ++
             (match pod_status.container_statuses with
              | none => []
              | some container_statuses =>
                match container_statuses.find?
                    (fun c2 : ContainerStatus =>
                      decide (c2.name = file_info.container_name)) with
                | some container_status =>
                  containerStatusWrites a.fields_spec container_status
                | none => [])) =
          (fileInfoWrites a.fields_spec file_info ++ mw ++
            specWrites a.fields_spec sp) ++
          (p, Value.str img) ::
          (match pod.status with
           | none => ([] : List (FieldPath × Value))
           | some pod_status =>
             statusWrites a.fields_spec pod_status ++
             (match pod_status.container_statuses with
              | none => []
              | some container_statuses =>
                match container_statuses.find?
                    (fun c2 : ContainerStatus =>
                      decide (c2.name = file_info.container_name)) with
                | some container_status =>
                  containerStatusWrites a.fields_spec container_status
                | none => [])) by simp]
      refine applyInserts_get_last _ _ event p _ ?_
      intro pair hpair hcontra
      rcases statusChunk_mem a.fields_spec file_info pod pair hpair with hq | hq | hq
      · rw [hcontra] at hq
        exact hip hq
      · rw [hcontra] at hq
        exact hips hq
      · rw [hcontra] at hq
        exact hid hq
  · intro p himg hnone hq
    refine applyInserts_get_frame w event p ?_
    intro pair hpair hcontra
    apply hq
    have hd := podWrites_mem a.fields_spec file_info pod w pair.1 pair.2 hw
      (by simpa using hpair)
    rw [hcontra] at hd
    rcases hd with hx | hx | hx | hx | hx | hx | hx | hx | hx | hx | hx | hx
    · exact mem_allowedPaths _ file_info pod p (Or.inl hx)
    · exact mem_allowedPaths _ file_info pod p (Or.inr (Or.inl hx))
    · exact mem_allowedPaths _ file_info pod p (Or.inr (Or.inr (Or.inl hx)))
    · exact mem_allowedPaths _ file_info pod p (Or.inr (Or.inr (Or.inr (Or.inl hx))))
    · exact mem_allowedPaths _ file_info pod p
        (Or.inr (Or.inr (Or.inr (Or.inr (Or.inl hx)))))
    · exact mem_allowedPaths _ file_info pod p
        (Or.inr (Or.inr (Or.inr (Or.inr (Or.inr (Or.inl hx))))))
    · exact mem_allowedPaths _ file_info pod p
        (Or.inr (Or.inr (Or.inr (Or.inr (Or.inr (Or.inr (Or.inl hx)))))))
    · exact mem_allowedPaths _ file_info pod p
        (Or.inr (Or.inr (Or.inr (Or.inr (Or.inr (Or.inr (Or.inr (Or.inl hx))))))))
    · exfalso
      rcases hx with ⟨_, sp, c, hspec2, hfind2⟩
      have hcmem := List.mem_of_find?_eq_some hfind2
      have hcp := List.find?_some hfind2
      simp only [decide_eq_true_eq] at hcp
      exact hnone sp hspec2 c hcmem hcp
    · exact mem_allowedPaths _ file_info pod p
        (Or.inr (Or.inr (Or.inr (Or.inr (Or.inr (Or.inr (Or.inr (Or.inr (Or.inr
          (Or.inl hx))))))))))
    · exact mem_allowedPaths _ file_info pod p
        (Or.inr (Or.inr (Or.inr (Or.inr (Or.inr (Or.inr (Or.inr (Or.inr (Or.inr
          (Or.inr (Or.inl hx)))))))))))
    · exact mem_allowedPaths _ file_info pod p
        (Or.inr (Or.inr (Or.inr (Or.inr (Or.inr (Or.inr (Or.inr (Or.inr (Or.inr
          (Or.inr (Or.inr hx)))))))))))
  · intro st css l1 cs l2 p cid hstat hcss hdec hl1 hcn hid hcid
    have hfind : css.find?
        (fun c2 => decide (c2.name = file_info.container_name)) = some cs := by
      rw [hdec]
      exact find?_first _ l1 l2 cs (fun x hx => by simp [hl1 x hx]) (by simp [hcn])
    cases hmw : metadataWrites a.fields_spec pod.metadata with
    | none =>
      have : podWrites a.fields_spec file_info pod = none := by
        unfold podWrites
        rw [hmw]
      rw [this] at hw
      exact absurd hw (by simp)
    | some mw =>
      have hpw := podWrites_some a.fields_spec file_info pod mw hmw
      rw [hw] at hpw
      simp only [Option.some.injEq] at hpw
      subst hpw
      rw [hstat]
      dsimp only
      rw [hcss]
      dsimp only
      rw [hfind]
      dsimp only
      have hcw : containerStatusWrites a.fields_spec cs = [(p, Value.str cid)] := by
        unfold containerStatusWrites optWrite
        rw [hid, hcid]
      rw [hcw]
      rw [show fileInfoWrites a.fields_spec file_info ++ mw ++
          (match pod.spec with
           | none => ([] : List (FieldPath × Value))
           | some pod_spec =>
             specWrites a.fields_spec pod_spec ++
             (match pod_spec.containers.find?
                 (fun c2 : Container => decide (c2.name = file_info.container_name)) with
              | some container => containerWrites a.fields_spec container
              | none => [])) ++
          (statusWrites a.fields_spec st ++ [(p, Value.str cid)]) =
          (fileInfoWrites a.fields_spec file_info ++ mw ++
            (match pod.spec with
             | none => ([] : List (FieldPath × Value))
             | some pod_spec =>
               specWrites a.fields_spec pod_spec ++
               (match pod_spec.containers.find?
                   (fun c2 : Container =>
                     decide (c2.name = file_info.container_name)) with
                | some container => containerWrites a.fields_spec container
                | none => [])) ++
            statusWrites a.fields_spec st) ++
          (p, Value.str cid) :: [] by simp]
      refine applyInserts_get_last _ _ event p _ ?_
      intro pair hpair
      exact absurd hpair (List.not_mem_nil pair)
  · intro p hid hnone hq
    refine applyInserts_get_frame w event p ?_
    intro pair hpair hcontra
    apply hq
    have hd := podWrites_mem a.fields_spec file_info pod w pair.1 pair.2 hw
      (by simpa using hpair)
    rw [hcontra] at hd
    rcases hd with hx | hx | hx | hx | hx | hx | hx | hx | hx | hx | hx | hx
    · exact mem_allowedPaths _ file_info pod p (Or.inl hx)
    · exact mem_allowedPaths _ file_info pod p (Or.inr (Or.inl hx))
    · exact mem_allowedPaths _ file_info pod p (Or.inr (Or.inr (Or.inl hx)))
    · exact mem_allowedPaths _ file_info pod p (Or.inr (Or.inr (Or.inr (Or.inl hx))))
    · exact mem_allowedPaths _ file_info pod p
        (Or.inr (Or.inr (Or.inr (Or.inr (Or.inl hx)))))
    · exact mem_allowedPaths _ file_info pod p
        (Or.inr (Or.inr (Or.inr (Or.inr (Or.inr (Or.inl hx))))))
    · exact mem_allowedPaths _ file_info pod p
        (Or.inr (Or.inr (Or.inr (Or.inr (Or.inr (Or.inr (Or.inl hx)))))))
    · exact mem_allowedPaths _ file_info pod p
        (Or.inr (Or.inr (Or.inr (Or.inr (Or.inr (Or.inr (Or.inr (Or.inl hx))))))))
    · exact mem_allowedPaths _ file_info pod p
        (Or.inr (Or.inr (Or.inr (Or.inr (Or.inr (Or.inr (Or.inr (Or.inr
          (Or.inl hx)))))))))
    · exact mem_allowedPaths _ file_info pod p
        (Or.inr (Or.inr (Or.inr (Or.inr (Or.inr (Or.inr (Or.inr (Or.inr (Or.inr
          (Or.inl hx))))))))))
    · exact mem_allowedPaths _ file_info pod p
        (Or.inr (Or.inr (Or.inr (Or.inr (Or.inr (Or.inr (Or.inr (Or.inr (Or.inr
          (Or.inr (Or.inl hx)))))))))))
    · exfalso
      rcases hx with ⟨_, st, css, cs, hstat2, hcss2, hfind2⟩
      have hcmem := List.mem_of_find?_eq_some hfind2
      have hcp := List.find?_some hfind2
      simp only [decide_eq_true_eq] at hcp
      exact hnone st css hstat2 hcss2 cs hcmem hcp

/-- Witness for C7: with two containers named `app`, the image of the first
one in list order is written, and the matching container status supplies the
container id. -/
theorem container_matching_witness :
    ∃ ev2, PodMetadataAnnotator.annotate ⟨store7, FieldsSpec.default⟩ ⟨[]⟩
        "/var/log/pods/nsB_podB_uidB/app/2.log" =
        some (some ⟨"nsB", "podB", "uidB", "app"⟩, ev2) ∧
      ev2.get ["kubernetes", "container_image"] = some (Value.str "img1") ∧
      ev2.get ["kubernetes", "container_id"] = some (Value.str "cidA") := by
  refine ⟨⟨[(["kubernetes", "container_name"], Value.str "app"),
    (["kubernetes", "pod_name"], Value.str "podB"),
    (["kubernetes", "pod_namespace"], Value.str "nsB"),
    (["kubernetes", "pod_uid"], Value.str "uidB"),
    (["kubernetes", "container_image"], Value.str "img1"),
    (["kubernetes", "container_id"], Value.str "cidA")]⟩, by decide, ?_, ?_⟩
  · exact (container_matching ⟨store7, FieldsSpec.default⟩ ⟨[]⟩
      "/var/log/pods/nsB_podB_uidB/app/2.log" ⟨"nsB", "podB", "uidB", "app"⟩ pod7 _
      (by decide) (by decide) (by decide)).1
      { node_name := none
        containers := [⟨"other", some "imgX"⟩, ⟨"app", some "img1"⟩,
          ⟨"app", some "img2"⟩] }
      [⟨"other", some "imgX"⟩] ⟨"app", some "img1"⟩ [⟨"app", some "img2"⟩]
      ["kubernetes", "container_image"] "img1"
      rfl rfl (by decide) rfl rfl rfl (by decide) (by decide) (by decide)
  · exact (container_matching ⟨store7, FieldsSpec.default⟩ ⟨[]⟩
      "/var/log/pods/nsB_podB_uidB/app/2.log" ⟨"nsB", "podB", "uidB", "app"⟩ pod7 _
      (by decide) (by decide) (by decide)).2.2.1
      { pod_ip := none, pod_ips := none
        container_statuses := some [⟨"app", some "cidA"⟩] }
      [⟨"app", some "cidA"⟩] [] ⟨"app", some "cidA"⟩ []
      ["kubernetes", "container_id"] "cidA"
      rfl rfl rfl (by decide) rfl rfl rfl

/-- Claim C2 (amended): every projector equals its write chain, and a pair
is in that chain exactly when the slot is enabled and the source attribute
present — a disabled slot or an absent attribute yields no write at all.
For `pod_owner`, presence means a present *non-empty* owner list: on a
present-but-empty list with the slot enabled the projector panics instead
of writing (the final equivalence; see claim C3). -/
theorem projector_writes_iff (log : LogEvent) (fields_spec : FieldsSpec)
    (file_info : LogFileInfo) (pod_spec : PodSpec) (container : Container)
    (container_status : ContainerStatus) (pod_status : PodStatus)
    (metadata : ObjectMeta) (p : FieldPath) (w : Value) :
    (annotate_from_file_info log fields_spec file_info =
        applyInserts (fileInfoWrites fields_spec file_info) log ∧
      ((p, w) ∈ fileInfoWrites fields_spec file_info ↔
        fields_spec.container_name = some p ∧
          w = Value.str file_info.container_name)) ∧
    (annotate_from_pod_spec log fields_spec pod_spec =
        applyInserts (specWrites fields_spec pod_spec) log ∧
      ((p, w) ∈ specWrites fields_spec pod_spec ↔
        fields_spec.pod_node_name = some p ∧
          ∃ v, pod_spec.node_name = some v ∧ w = Value.str v)) ∧
    (annotate_from_container log fields_spec container =
        applyInserts (containerWrites fields_spec container) log ∧
      ((p, w) ∈ containerWrites fields_spec container ↔
        fields_spec.container_image = some p ∧
          ∃ v, container.image = some v ∧ w = Value.str v)) ∧
    (annotate_from_container_status log fields_spec container_status =
        applyInserts (containerStatusWrites fields_spec container_status) log ∧
      ((p, w) ∈ containerStatusWrites fields_spec container_status ↔
        fields_spec.container_id = some p ∧
          ∃ v, container_status.container_id = some v ∧ w = Value.str v)) ∧
    (annotate_from_pod_status log fields_spec pod_status =
        applyInserts (statusWrites fields_spec pod_status) log ∧
      ((p, w) ∈ statusWrites fields_spec pod_status ↔
        (fields_spec.pod_ip = some p ∧
          ∃ v, pod_status.pod_ip = some v ∧ w = Value.str v) ∨
        (fields_spec.pod_ips = some p ∧ ∃ ips, pod_status.pod_ips = some ips ∧
          w = Value.list (ips.filterMap PodIP.ip)))) ∧
    (∀ mw, metadataWrites fields_spec metadata = some mw →
      annotate_from_metadata log fields_spec metadata = some (applyInserts mw log) ∧
      ((p, w) ∈ mw ↔
        (fields_spec.pod_name = some p ∧
          ∃ v, metadata.name = some v ∧ w = Value.str v) ∨
        (fields_spec.pod_namespace = some p ∧
          ∃ v, metadata.nspace = some v ∧ w = Value.str v) ∨
        (fields_spec.pod_uid = some p ∧
          ∃ v, metadata.uid = some v ∧ w = Value.str v) ∨
        (fields_spec.pod_owner = some p ∧ ∃ r rest,
          metadata.owner_references = some (r :: rest) ∧
          w = Value.str (r.kind ++ "/" ++ r.name)) ∨
        (∃ pre ls, fields_spec.pod_labels = some pre ∧ metadata.labels = some ls ∧
          ∃ kv ∈ ls, p = pre ++ [kv.1] ∧ w = Value.str kv.2) ∨
        (∃ pre ls, fields_spec.pod_annotations = some pre ∧
          metadata.annotations = some ls ∧
          ∃ kv ∈ ls, p = pre ++ [kv.1] ∧ w = Value.str kv.2))) ∧
    (annotate_from_metadata log fields_spec metadata = none ↔
      (∃ key, fields_spec.pod_owner = some key) ∧
        metadata.owner_references = some []) := by
  refine ⟨⟨annotate_from_file_info_eq log fields_spec file_info, ?_⟩,
    ⟨annotate_from_pod_spec_eq log fields_spec pod_spec, optWrite_mem p w _ _⟩,
    ⟨annotate_from_container_eq log fields_spec container, optWrite_mem p w _ _⟩,
    ⟨annotate_from_container_status_eq log fields_spec container_status,
      optWrite_mem p w _ _⟩,
    ⟨annotate_from_pod_status_eq log fields_spec pod_status,
      statusWrites_mem p w fields_spec pod_status⟩, ?_, ?_⟩
  · simp [fileInfoWrites, optWrite_mem]
  · intro mw hmw
    exact ⟨by rw [annotate_from_metadata_eq, hmw, Option.map_some'],
      metadataWrites_some_mem p w fields_spec metadata mw hmw⟩
  · rw [annotate_from_metadata_eq, Option.map_eq_none']
    exact metadataWrites_none_iff fields_spec metadata

/-- Witness for C2: concrete instance of the metadata branch — the writes of
a metadata object carrying only a name are exactly the enabled `pod_name`
insert. -/
theorem projector_writes_iff_witness :
    annotate_from_metadata ⟨[]⟩ FieldsSpec.default
        { name := some "pod0", nspace := none, uid := none
          owner_references := none, labels := none, annotations := none } =
      some (applyInserts [(["kubernetes", "pod_name"], Value.str "pod0")] ⟨[]⟩) ∧
    ((["kubernetes", "pod_name"], Value.str "pod0") ∈
        [(["kubernetes", "pod_name"], Value.str "pod0")] ↔
      (FieldsSpec.default.pod_name = some ["kubernetes", "pod_name"] ∧
        ∃ v, (some "pod0" : Option String) = some v ∧ Value.str "pod0" = Value.str v) ∨
      (FieldsSpec.default.pod_namespace = some ["kubernetes", "pod_name"] ∧
        ∃ v, (none : Option String) = some v ∧ Value.str "pod0" = Value.str v) ∨
      (FieldsSpec.default.pod_uid = some ["kubernetes", "pod_name"] ∧
        ∃ v, (none : Option String) = some v ∧ Value.str "pod0" = Value.str v) ∨
      (FieldsSpec.default.pod_owner = some ["kubernetes", "pod_name"] ∧
        ∃ r rest, (none : Option (List OwnerReference)) = some (r :: rest) ∧
          Value.str "pod0" = Value.str (r.kind ++ "/" ++ r.name)) ∨
      (∃ pre ls, FieldsSpec.default.pod_labels = some pre ∧
        (none : Option (List (String × String))) = some ls ∧
        ∃ kv ∈ ls, ["kubernetes", "pod_name"] = pre ++ [kv.1] ∧
          Value.str "pod0" = Value.str kv.2) ∨
      (∃ pre ls, FieldsSpec.default.pod_annotations = some pre ∧
        (none : Option (List (String × String))) = some ls ∧
        ∃ kv ∈ ls, ["kubernetes", "pod_name"] = pre ++ [kv.1] ∧
          Value.str "pod0" = Value.str kv.2)) :=
  (projector_writes_iff ⟨[]⟩ FieldsSpec.default ⟨"ns", "pod", "uid", "con"⟩
    ⟨none, []⟩ ⟨"con", none⟩ ⟨"con", none⟩ ⟨none, none, none⟩
    { name := some "pod0", nspace := none, uid := none
      owner_references := none, labels := none, annotations := none }
    ["kubernetes", "pod_name"] (Value.str "pod0")).2.2.2.2.2.1
    [(["kubernetes", "pod_name"], Value.str "pod0")] (by decide)

/-- Counterexample to C2 as stated: the `pod_owner` slot is enabled and its
source attribute is present (`Some` of an empty list), yet the projector
performs no write at all — it panics, so no output record even exists. -/
theorem projector_writes_iff_counterexample :
    FieldsSpec.default.pod_owner = some ["kubernetes", "pod_owner"] ∧
    mBad2.owner_references = some [] ∧
    annotate_from_metadata ⟨[]⟩ FieldsSpec.default mBad2 = none := by decide

example :
    parse_log_file_path "/var/log/pods/ns0_pod0_uid0/app/1.log" =
      some ⟨"ns0", "pod0", "uid0", "app"⟩ := by decide

example : parse_log_file_path "" = none := by decide

example : parse_log_file_path "/var/log/pods/ns0_pod0/app/1.log" = none := by decide
